import Mathlib

/-!
Verification development for the TIDAL-DJ playback orchestration core.

The definitions below are a shallow embedding of the source files
`src/App.tsx`, `src/services/geminiService.ts` and
`src/services/spotifyService.ts`.

The orchestrator (App.tsx) is a single-threaded, callback-driven state
machine.  We model it as an explicit state record (`AppState`) together
with a total step function over externally delivered events
(user commands, audio completion events, timer firings, resolution of
in-flight generation requests).  Failure outcomes of external providers
are event parameters (oracles).

Conventions used for the browser audio primitives, following the HTML
and Web Audio specifications as the source relies on them:
  * an HTMLAudioElement that reaches its natural end gets `paused = true`
    and `ended = true` before the `ended` callback runs; a paused element
    never reaches its natural end; its completion event is delivered at
    most once per element;
  * `clearTimeout` prevents a timer callback that has not yet run;
  * stopping an AudioBufferSourceNode (voice channel) — whether by
    `stop()` or by natural completion — queues its `onended` callback,
    which is then delivered asynchronously; the source fires `onended`
    at most once and `stop()` on an already stopped source is a caught
    no-op (the source wraps it in try/catch).
-/

namespace TidalDJ

/-- Track record, from `src/types` (embedded at the end of
`src/services/spotifyService.ts`): id, title, artist, album, duration,
coverUrl, moodTag, optional reason, optional previewUrl. -/
structure Track where
  id : String
  title : String
  artist : String
  album : String
  duration : Nat
  coverUrl : String
  moodTag : String
  reason : Option String
  previewUrl : Option String
deriving DecidableEq

/-- PlaybackState enum from `src/types`. -/
inductive PlaybackState where
  | IDLE
  | LOADING_SESSION
  | PLAYING_COMMENTARY
  | PLAYING_TRACK
  | PAUSED
deriving DecidableEq

/-- DJSession record from `src/types`. -/
structure DJSession where
  mood : String
  tracks : List Track
  currentTrackIndex : Int
  history : List String
deriving DecidableEq

/-! ## Playlist generation (geminiService.generatePlaylist enrichment loop) -/

/-- Raw track entry as returned by the Gemini playlist JSON
(`title`, `artist`, `moodTag`, `reason`). -/
structure RawTrack where
  title : String
  artist : String
  moodTag : String
  reason : Option String
deriving DecidableEq

/-- Metadata record returned by `searchSpotifyTrack` on success
(src/services/spotifyService.ts, lines 72-80).  The function itself is
fallible in the source: every failure path (auth error, non-ok response,
no items, thrown error) returns null, which we model by the caller
receiving an `Option SpotifyData`. -/
structure SpotifyData where
  title : String
  artist : String
  album : String
  coverUrl : String
  previewUrl : Option String
  duration : Nat
  spotifyUri : String
deriving DecidableEq

/-- `getRandomImage` from src/services/geminiService.ts line 16. -/
def getRandomImage (id : Nat) : String :=
  "https://picsum.photos/seed/" ++ toString id ++ "/400/400"

/-- JS string-falsiness helper: `s || d` for strings. -/
def strOr (s d : String) : String := if s = "" then d else s

/-- One iteration of the enrichment loop of `generatePlaylist`
(src/services/geminiService.ts lines 86-117).  `now` stands for
`Date.now()` and `i` is the loop index. -/
def enrichTrack (now : Nat) (i : Nat) (t : RawTrack) (lookup : Option SpotifyData) : Track :=
  match lookup with
  | some sd =>
      { id := "track-" ++ toString now ++ "-" ++ toString i
        title := sd.title
        artist := sd.artist
        album := sd.album
        duration := sd.duration
        coverUrl := sd.coverUrl
        moodTag := strOr t.moodTag "Vibe"
        reason := t.reason
        previewUrl := sd.previewUrl }
  | none =>
      { id := "track-" ++ toString now ++ "-" ++ toString i
        title := strOr t.title "Unknown Title"
        artist := strOr t.artist "Unknown Artist"
        album := "Unknown Album"
        duration := 30000
        coverUrl := getRandomImage i
        moodTag := strOr t.moodTag "Vibe"
        reason := t.reason
        previewUrl := none }

/-- Spotify query string built by the loop: `title artist`. -/
def trackQuery (t : RawTrack) : String := t.title ++ " " ++ t.artist

/-- The enrichment loop, indexed from `i`. -/
def enrichTracksAux (now : Nat) (lookup : String → Option SpotifyData) :
    Nat → List RawTrack → List Track
  | _, [] => []
  | i, t :: ts =>
      enrichTrack now i t (lookup (trackQuery t)) :: enrichTracksAux now lookup (i + 1) ts

/-- The enrichment loop of `generatePlaylist`: every raw track is mapped
to exactly one enriched Track, with the Spotify lookup consulted per
track. -/
def enrichTracks (now : Nat) (raw : List RawTrack) (lookup : String → Option SpotifyData) :
    List Track :=
  enrichTracksAux now lookup 0 raw

theorem enrichTracksAux_length (now : Nat) (lookup : String → Option SpotifyData)
    (i : Nat) (raw : List RawTrack) :
    (enrichTracksAux now lookup i raw).length = raw.length := by
  induction raw generalizing i with
  | nil => rfl
  | cons t ts ih => simp [enrichTracksAux, ih]

theorem enrichTracksAux_getElem? (now : Nat) (lookup : String → Option SpotifyData)
    (i : Nat) (raw : List RawTrack) (j : Nat) :
    (enrichTracksAux now lookup i raw)[j]? =
      (raw[j]?).map (fun t => enrichTrack now (i + j) t (lookup (trackQuery t))) := by
  induction raw generalizing i j with
  | nil => simp [enrichTracksAux]
  | cons t ts ih =>
      cases j with
      | zero => simp [enrichTracksAux]
      | succ j =>
          simp only [enrichTracksAux, List.getElem?_cons_succ, ih]
          have : i + (j + 1) = i + 1 + j := by omega
          rw [this]

/-! ## List update helper -/

/-- Pointwise update of a list at an index (no-op when out of range). -/
def updateAt {α : Type} : List α → Nat → (α → α) → List α
  | [], _, _ => []
  | a :: l, 0, f => f a :: l
  | a :: l, n + 1, f => a :: updateAt l n f

@[simp] theorem length_updateAt {α : Type} (l : List α) (i : Nat) (f : α → α) :
    (updateAt l i f).length = l.length := by
  induction l generalizing i with
  | nil => rfl
  | cons a l ih => cases i <;> simp [updateAt, ih]

theorem getElem?_updateAt {α : Type} (l : List α) (i : Nat) (f : α → α) (j : Nat) :
    (updateAt l i f)[j]? = if j = i then (l[j]?).map f else l[j]? := by
  induction l generalizing i j with
  | nil => simp [updateAt]
  | cons a l ih =>
      cases i with
      | zero => cases j <;> simp [updateAt]
      | succ i =>
          cases j with
          | zero => simp [updateAt]
          | succ j => simpa [updateAt] using ih i j

theorem getElem?_concat {α : Type} (l : List α) (a : α) (j : Nat) :
    (l ++ [a])[j]? = if j < l.length then l[j]? else if j = l.length then some a else none := by
  induction l generalizing j with
  | nil => cases j <;> simp
  | cons b l ih =>
      cases j with
      | zero => simp
      | succ j => simpa [Nat.succ_lt_succ_iff] using ih j

/-! ## Audio and timer objects

The orchestrator owns (via refs in App.tsx lines 22-25):
  * `musicAudioRef` — the current HTMLAudioElement of the music channel;
  * `voiceSourceRef` — the current AudioBufferSourceNode of the voice channel;
  * `trackTimerRef` — the id of the current 30s safety ceiling timer.
We keep every element / timer / source ever created in append-only lists,
so that stale (superseded) objects and their pending callbacks remain
expressible; the refs are indices into those lists. -/

/-- Which callback delivered the first Track-End-Decision for a music
element: its natural-completion callback or its ceiling timer. -/
inductive EndSource where
  | natural
  | ceiling
deriving DecidableEq

/-- A music-channel HTMLAudioElement created by `playNextTrack`
(App.tsx lines 122-142), together with the closure data captured by its
`onended` callback (`next`, `rest`) and instrumentation fields recording
how often, and by which callback first, `handleTrackEnd` was invoked on
behalf of this element. -/
structure MusicElem where
  url : String
  volume : Nat
  paused : Bool
  ended : Bool
  onendedTrack : Track
  onendedRest : List Track
  firstEnd : Option EndSource
  endCount : Nat
  timerActed : Bool
deriving DecidableEq

/-- The safety ceiling timer registered by `playNextTrack`
(App.tsx lines 135-140); `elem` is the music element its closure
captured.  `cleared` means `clearTimeout` ran before it fired. -/
structure CeilingTimer where
  elem : Nat
  cleared : Bool
  fired : Bool
deriving DecidableEq

/-- A voice-channel AudioBufferSourceNode created by `playCommentary`
(App.tsx lines 96-105).  `stopped` means it no longer plays (either its
buffer finished or `stop()` was requested); `endedDelivered` means its
`onended` callback (which invokes `playNextTrack`) has run.  The source
never detaches `onended`, so a stop always leaves the callback pending
until delivered. -/
structure VoiceSource where
  stopped : Bool
  endedDelivered : Bool
deriving DecidableEq

/-- An in-flight interlude generation request created by the commentary
branch of `handleTrackEnd` (App.tsx lines 156-166): the awaited
`generateInterludeScript` / `generateSpeechAudio` pair, with the closure
data (`finishedTrack`, `remainingQueue`). -/
structure GenJob where
  finished : Track
  rest : List Track
  resolved : Bool
deriving DecidableEq

/-- The full orchestrator state: the React state hooks of App.tsx
(lines 14-19), the refs (lines 22-25) modelled as indices into
append-only object stores, the outstanding generation requests, and the
externally observable `alert` / `console.warn` streams. -/
structure AppState where
  session : Option DJSession
  playbackState : PlaybackState
  currentTrack : Option Track
  queue : List Track
  djText : Option String
  isLoading : Bool
  elems : List MusicElem
  musicRef : Option Nat
  timers : List CeilingTimer
  trackTimerRef : Option Nat
  voices : List VoiceSource
  voiceRef : Option Nat
  pendingGens : List GenJob
  alerts : List String
  warns : Nat
deriving DecidableEq

/-- Initial state of the App component. -/
def initState : AppState :=
  { session := none
    playbackState := PlaybackState.IDLE
    currentTrack := none
    queue := []
    djText := none
    isLoading := false
    elems := []
    musicRef := none
    timers := []
    trackTimerRef := none
    voices := []
    voiceRef := none
    pendingGens := []
    alerts := []
    warns := 0 }

/-- Fallback audio URL, App.tsx line 10. -/
def FALLBACK_AUDIO_URL : String :=
  "https://cdn.pixabay.com/download/audio/2022/05/27/audio_1808fbf07a.mp3?filename=lofi-study-112191.mp3"

/-- User-visible error surfaced by the catch branch of `startSession`
(App.tsx line 83). -/
def startErrorAlert : String := "Could not start DJ session."

/-- End-of-session notice surfaced by `handleTrackEnd`
(App.tsx line 172). -/
def sessionEndedAlert : String := "Session ended."

/-! ## stopAllAudio (App.tsx lines 35-47) -/

/-- Voice half of `stopAllAudio`: `voiceSourceRef.current.stop()` inside
try/catch.  Stopping marks the source stopped; its `onended` stays
attached and becomes pending if it was still playing.  The ref is not
nulled. -/
def stopRefVoice (voices : List VoiceSource) : Option Nat → List VoiceSource
  | none => voices
  | some v => updateAt voices v (fun x => { x with stopped := true })

/-- Music half of `stopAllAudio`: `musicAudioRef.current.pause()`. -/
def pauseRefElem (elems : List MusicElem) : Option Nat → List MusicElem
  | none => elems
  | some j => updateAt elems j (fun e => { e with paused := true })

/-- Timer half of `stopAllAudio` (also used by `handleTogglePlay`):
`clearTimeout(trackTimerRef.current)`.  The ref is not nulled. -/
def clearRefTimer (timers : List CeilingTimer) : Option Nat → List CeilingTimer
  | none => timers
  | some t => updateAt timers t (fun c => { c with cleared := true })

/-- `stopAllAudio` (App.tsx lines 35-47): stop the voice source, pause
the music element and null its ref, clear the ceiling timer. -/
def stopAllAudio (s : AppState) : AppState :=
  { s with
    voices := stopRefVoice s.voices s.voiceRef
    elems := pauseRefElem s.elems s.musicRef
    musicRef := none
    timers := clearRefTimer s.timers s.trackTimerRef }

/-! ## playCommentary and playNextTrack (App.tsx lines 90-146) -/

/-- `playCommentary` (App.tsx lines 90-106): teardown, set phase and
commentary text, start a fresh voice source whose `onended` invokes
`playNextTrack`. -/
def playCommentary (text : String) (s0 : AppState) : AppState :=
  let s := stopAllAudio s0
  { s with
    playbackState := PlaybackState.PLAYING_COMMENTARY
    djText := some text
    voices := s.voices ++ [{ stopped := false, endedDelivered := false }]
    voiceRef := some s.voices.length }

/-- Fresh music element created by `playNextTrack` for the popped track
(App.tsx lines 120-131): preview URL or fallback, volume 0.6, playing,
with the onended closure capturing `next` and `rest`. -/
def newElem (next : Track) (rest : List Track) : MusicElem :=
  { url := next.previewUrl.getD FALLBACK_AUDIO_URL
    volume := 60
    paused := false
    ended := false
    onendedTrack := next
    onendedRest := rest
    firstEnd := none
    endCount := 0
    timerActed := false }

/-- The non-empty-queue branch of `playNextTrack` (App.tsx lines
114-144): set the current track and phase, start the music element,
register the ceiling timer, pop the queue. -/
def startMusic (next : Track) (rest : List Track) (s : AppState) : AppState :=
  { s with
    currentTrack := some next
    playbackState := PlaybackState.PLAYING_TRACK
    elems := s.elems ++ [newElem next rest]
    musicRef := some s.elems.length
    timers := s.timers ++ [{ elem := s.elems.length, cleared := false, fired := false }]
    trackTimerRef := some s.timers.length
    queue := rest }

/-- Queue dispatch of `playNextTrack` (the `setQueue` updater body,
App.tsx lines 112-145): empty queue is a no-op, otherwise pop and
start. -/
def playNextTrackAux (s : AppState) : AppState :=
  match s.queue with
  | [] => s
  | next :: rest => startMusic next rest s

/-- `playNextTrack` (App.tsx lines 108-146): teardown and clear the
commentary text first; then, if the queue is empty, nothing more
happens, otherwise the front track is popped and started. -/
def playNextTrack (s0 : AppState) : AppState :=
  playNextTrackAux { stopAllAudio s0 with djText := none }

/-! ## handleTrackEnd (App.tsx lines 148-174) -/

/-- `handleTrackEnd` (App.tsx lines 148-174).  `coin` is the outcome of
`Math.random() > 0.4`.  With tracks remaining and the coin selecting
commentary (and a session present), the interlude generation starts
asynchronously: we record a pending `GenJob` resolved later by
`genResolve`.  Otherwise `playNextTrack` runs directly; with no tracks
remaining the phase becomes IDLE and the end-of-session notice is
surfaced. -/
def handleTrackEnd (coin : Bool) (finished : Track) (rest : List Track)
    (s : AppState) : AppState :=
  if rest.length > 0 then
    if coin && s.session.isSome then
      { s with pendingGens := s.pendingGens ++ [{ finished := finished, rest := rest, resolved := false }] }
    else
      playNextTrack s
  else
    { s with
      playbackState := PlaybackState.IDLE
      alerts := s.alerts ++ [sessionEndedAlert] }

/-- Interlude script produced by `generateInterludeScript`
(src/services/geminiService.ts lines 128-152): the function catches its
own failures and resolves with the deterministic fallback string instead
of rejecting. -/
def interludeScript (interludeFail : Bool) (aiScript : String) (next : Track) : String :=
  if interludeFail then "Next up is " ++ next.title ++ "." else aiScript

/-- Resolution of a pending interlude generation (the awaited part of
the commentary branch of `handleTrackEnd`, App.tsx lines 157-166).
`interludeFail` is an internal failure of `generateInterludeScript`
(absorbed there into the fallback script); `speechFail` is a rejection
of `generateSpeechAudio`, which hits the catch branch: a console warning
and a direct `playNextTrack`. -/
def genResolveCont (interludeFail : Bool) (aiScript : String) (speechFail : Bool)
    (job : GenJob) (s1 : AppState) : AppState :=
  match job.rest with
  | [] => s1
  | next :: _ =>
      if speechFail then
        playNextTrack { s1 with warns := s1.warns + 1 }
      else
        playCommentary (interludeScript interludeFail aiScript next) s1

def genResolve (k : Nat) (interludeFail : Bool) (aiScript : String) (speechFail : Bool)
    (s : AppState) : AppState :=
  match s.pendingGens[k]? with
  | none => s
  | some job =>
      if job.resolved then s
      else
        genResolveCont interludeFail aiScript speechFail job
          { s with pendingGens := updateAt s.pendingGens k (fun j => { j with resolved := true }) }

/-! ## User commands (App.tsx lines 51-88, 176-206) -/

/-- `handleSkip` (App.tsx lines 176-179): `stopAllAudio` then
`playNextTrack`. -/
def handleSkip (s : AppState) : AppState :=
  playNextTrack (stopAllAudio s)

/-- `handleTogglePlay` (App.tsx lines 181-206).  From PLAYING_TRACK:
phase PAUSED, pause the music element, clear the ceiling timer.  From
PAUSED: phase PLAYING_TRACK and resume the same music element; if the
ref is unexpectedly null, fall back to `playNextTrack`.  In every other
phase nothing happens. -/
def handleTogglePlay (s : AppState) : AppState :=
  match s.playbackState with
  | PlaybackState.PLAYING_TRACK =>
      let s1 := { s with
        playbackState := PlaybackState.PAUSED
        elems := pauseRefElem s.elems s.musicRef }
      { s1 with timers := clearRefTimer s1.timers s1.trackTimerRef }
  | PlaybackState.PAUSED =>
      let s1 := { s with playbackState := PlaybackState.PLAYING_TRACK }
      match s1.musicRef with
      | some j => { s1 with elems := updateAt s1.elems j (fun e => { e with paused := false }) }
      | none => playNextTrack s1
  | _ => s

/-- `startSession` (App.tsx lines 51-88), with the outcomes of its
awaited steps as oracles: `resumeFails` (audio context resume rejects —
caught with only a console warning, App.tsx lines 54-60), `playlist`
(`generatePlaylist` result, `none` meaning rejection) and `speechFails`
(`generateSpeechAudio` rejection).  The try/catch surfaces an alert and
resets the phase to IDLE; the finally clause clears `isLoading` on every
path. -/
def startSession (prompt : String) (resumeFails : Bool)
    (playlist : Option (List Track × String)) (speechFails : Bool)
    (s : AppState) : AppState :=
  let s0 := if resumeFails then { s with warns := s.warns + 1 } else s
  let s1 := { s0 with isLoading := true }
  let s2 :=
    match playlist with
    | none =>
        { s1 with
          alerts := s1.alerts ++ [startErrorAlert]
          playbackState := PlaybackState.IDLE }
    | some (tracks, introScript) =>
        let s' := { s1 with
          session := some { mood := prompt, tracks := tracks, currentTrackIndex := -1, history := [] }
          queue := tracks }
        if speechFails then
          { s' with
            alerts := s'.alerts ++ [startErrorAlert]
            playbackState := PlaybackState.IDLE }
        else
          playCommentary introScript s'
  { s2 with isLoading := false }

/-! ## Audio events -/

/-- Natural completion of music element `j` (the `onended` of App.tsx
lines 129-131).  Enabled only while the element actually plays; per the
HTML media semantics the element becomes paused and ended, and the
callback invokes `handleTrackEnd` with the captured closure data. -/
def naturalEndElem (e : MusicElem) : MusicElem :=
  { e with
    paused := true
    ended := true
    endCount := e.endCount + 1
    firstEnd := match e.firstEnd with | none => some EndSource.natural | some x => some x }

def musicEndAt (j : Nat) (coin : Bool) (s : AppState) : AppState :=
  match s.elems[j]? with
  | none => s
  | some e =>
      if e.paused || e.ended then s
      else
        handleTrackEnd coin e.onendedTrack e.onendedRest
          { s with elems := updateAt s.elems j (fun _ => naturalEndElem e) }

/-- Firing of ceiling timer `t` (the `setTimeout` callback of App.tsx
lines 135-140): only possible if neither cleared nor already fired; the
callback checks `!audio.paused`, and if the element still plays it is
force-paused and `handleTrackEnd` is invoked. -/
def ceilingEndElem (e : MusicElem) : MusicElem :=
  { e with
    paused := true
    endCount := e.endCount + 1
    firstEnd := match e.firstEnd with | none => some EndSource.ceiling | some x => some x
    timerActed := true }

def timerFireAt (t : Nat) (coin : Bool) (s : AppState) : AppState :=
  match s.timers[t]? with
  | none => s
  | some c =>
      if c.cleared || c.fired then s
      else
        let s1 := { s with timers := updateAt s.timers t (fun x => { x with fired := true }) }
        match s1.elems[c.elem]? with
        | none => s1
        | some e =>
            if e.paused then s1
            else
              handleTrackEnd coin e.onendedTrack e.onendedRest
                { s1 with elems := updateAt s1.elems c.elem (fun _ => ceilingEndElem e) }

/-- Voice source `v` stops playing because its buffer finished. -/
def voiceFinishAt (v : Nat) (s : AppState) : AppState :=
  match s.voices[v]? with
  | none => s
  | some src =>
      if src.stopped then s
      else { s with voices := updateAt s.voices v (fun x => { x with stopped := true }) }

/-- Delivery of the pending `onended` callback of voice source `v`
(App.tsx lines 100-102): once the source has stopped — naturally or via
`stop()` — its still-attached callback runs and invokes
`playNextTrack`. -/
def voiceDeliverAt (v : Nat) (s : AppState) : AppState :=
  match s.voices[v]? with
  | none => s
  | some src =>
      if src.stopped && !src.endedDelivered then
        playNextTrack { s with voices := updateAt s.voices v (fun x => { x with endedDelivered := true }) }
      else s

/-! ## The event system -/

/-- External events delivered into the single-threaded control flow:
user commands (with provider outcomes as oracles for `startSession`),
audio completion events, timer firings, and resolutions of in-flight
interlude generations. -/
inductive Ev where
  | start (prompt : String) (resumeFails : Bool)
      (playlist : Option (List Track × String)) (speechFails : Bool)
  | skip
  | toggle
  | musicEnd (j : Nat) (coin : Bool)
  | timerFire (t : Nat) (coin : Bool)
  | voiceFinish (v : Nat)
  | voiceDeliver (v : Nat)
  | genDone (k : Nat) (interludeFail : Bool) (aiScript : String) (speechFail : Bool)

/-- Total step function.  User commands are gated the way the
presentation layer gates them (App.tsx lines 230-242): the session
trigger is only reachable in IDLE, the player controls only outside
IDLE. -/
def applyEv (e : Ev) (s : AppState) : AppState :=
  match e with
  | Ev.start prompt rf pl sf =>
      if s.playbackState = PlaybackState.IDLE then startSession prompt rf pl sf s else s
  | Ev.skip =>
      if s.playbackState = PlaybackState.IDLE then s else handleSkip s
  | Ev.toggle =>
      if s.playbackState = PlaybackState.IDLE then s else handleTogglePlay s
  | Ev.musicEnd j coin => musicEndAt j coin s
  | Ev.timerFire t coin => timerFireAt t coin s
  | Ev.voiceFinish v => voiceFinishAt v s
  | Ev.voiceDeliver v => voiceDeliverAt v s
  | Ev.genDone k iFail txt sFail => genResolve k iFail txt sFail s

/-- Reachable orchestrator states. -/
inductive Reachable : AppState → Prop
  | init : Reachable initState
  | next (e : Ev) (s : AppState) : Reachable s → Reachable (applyEv e s)

/-- N consecutive Skip commands (a Skip storm). -/
def skipN : Nat → AppState → AppState
  | 0, s => s
  | n + 1, s => skipN n (handleSkip s)

/-! ## Pointwise characterisation of the teardown helpers -/

theorem pauseRefElem_length (elems : List MusicElem) (r : Option Nat) :
    (pauseRefElem elems r).length = elems.length := by
  cases r <;> simp [pauseRefElem]

theorem clearRefTimer_length (timers : List CeilingTimer) (r : Option Nat) :
    (clearRefTimer timers r).length = timers.length := by
  cases r <;> simp [clearRefTimer]

theorem stopRefVoice_length (voices : List VoiceSource) (r : Option Nat) :
    (stopRefVoice voices r).length = voices.length := by
  cases r <;> simp [stopRefVoice]

theorem pauseRefElem_getElem? (elems : List MusicElem) (r : Option Nat) (j : Nat) :
    (pauseRefElem elems r)[j]? =
      if r = some j then (elems[j]?).map (fun e => { e with paused := true })
      else elems[j]? := by
  cases r with
  | none => simp [pauseRefElem]
  | some i =>
      have hne : ¬(i = j) → ¬(j = i) := fun a b => a b.symm
      simp only [pauseRefElem, getElem?_updateAt, Option.some.injEq]
      by_cases hij : i = j
      · simp [hij]
      · simp [hij, hne hij]

theorem clearRefTimer_getElem? (timers : List CeilingTimer) (r : Option Nat) (j : Nat) :
    (clearRefTimer timers r)[j]? =
      if r = some j then (timers[j]?).map (fun c => { c with cleared := true })
      else timers[j]? := by
  cases r with
  | none => simp [clearRefTimer]
  | some i =>
      have hne : ¬(i = j) → ¬(j = i) := fun a b => a b.symm
      simp only [clearRefTimer, getElem?_updateAt, Option.some.injEq]
      by_cases hij : i = j
      · simp [hij]
      · simp [hij, hne hij]

theorem stopRefVoice_getElem? (voices : List VoiceSource) (r : Option Nat) (j : Nat) :
    (stopRefVoice voices r)[j]? =
      if r = some j then (voices[j]?).map (fun x => { x with stopped := true })
      else voices[j]? := by
  cases r with
  | none => simp [stopRefVoice]
  | some i =>
      have hne : ¬(i = j) → ¬(j = i) := fun a b => a b.symm
      simp only [stopRefVoice, getElem?_updateAt, Option.some.injEq]
      by_cases hij : i = j
      · simp [hij]
      · simp [hij, hne hij]

/-! ## The inductive invariant

`InvCore` is the part of the invariant that survives a bare
`stopAllAudio` (which nulls the music ref without yet re-establishing
the phase/queue relationship); `Inv` is the full invariant of reachable
states. -/

/-- Core invariant of the audio machinery.
  * `len_eq`, `timer_elem`: music elements and ceiling timers are
    created in lockstep, timer `k` guards element `k`;
  * `ref_timer`: whenever a music element is current, its timer is the
    current timer;
  * `ended_safe`: an element that has naturally ended is paused, or its
    timer can no longer fire — the mechanism that makes the natural
    completion and the ceiling timer mutually exclusive;
  * `nat_first`: once the natural completion fired first, exactly one
    Track-End-Decision happened for that element and its timer never
    acted;
  * `fresh`: an element with no Track-End-Decision yet has a zero count;
  * `paused_phase`: in phase PAUSED the current ceiling timer has been
    cleared (or already fired);
  * `queue_suffix` (C5): the queue is a suffix of the session track
    list;
  * `session_frozen` (C10): the session record is never mutated after
    creation. -/
structure InvCore (s : AppState) : Prop where
  len_eq : s.elems.length = s.timers.length
  timer_elem : ∀ (t : Nat) (c : CeilingTimer), s.timers[t]? = some c → c.elem = t
  ref_timer : ∀ (j : Nat), s.musicRef = some j →
      s.trackTimerRef = some j ∧ j < s.elems.length
  ended_safe : ∀ (j : Nat) (e : MusicElem) (c : CeilingTimer),
      s.elems[j]? = some e → s.timers[j]? = some c →
      e.ended = true → e.paused = true ∨ c.cleared = true ∨ c.fired = true
  nat_first : ∀ (j : Nat) (e : MusicElem), s.elems[j]? = some e →
      e.firstEnd = some EndSource.natural →
      e.ended = true ∧ e.endCount = 1 ∧ e.timerActed = false
  fresh : ∀ (j : Nat) (e : MusicElem), s.elems[j]? = some e → e.firstEnd = none →
      e.endCount = 0 ∧ e.timerActed = false ∧ e.ended = false
  paused_phase : s.playbackState = PlaybackState.PAUSED →
      ∀ (j : Nat) (c : CeilingTimer), s.musicRef = some j →
      s.timers[j]? = some c → c.cleared = true ∨ c.fired = true
  queue_suffix : ∀ (sess : DJSession), s.session = some sess →
      s.queue.IsSuffix sess.tracks
  session_frozen : ∀ (sess : DJSession), s.session = some sess →
      sess.currentTrackIndex = -1 ∧ sess.history = []

/-- Full invariant: additionally, in the music phases a null music ref
can only coexist with an exhausted queue (C7 needs this for the
resume-with-null-ref corner). -/
structure Inv (s : AppState) extends InvCore s : Prop where
  paused_ref_none :
      (s.playbackState = PlaybackState.PLAYING_TRACK ∨
       s.playbackState = PlaybackState.PAUSED) →
      s.musicRef = none → s.queue = []

/-- Elements after `pauseRefElem`: each slot holds the old element,
possibly with `paused` forced to true. -/
theorem pauseRefElem_cases (elems : List MusicElem) (r : Option Nat) (j : Nat)
    (e : MusicElem) (he : (pauseRefElem elems r)[j]? = some e) :
    ∃ e0, elems[j]? = some e0 ∧ (e = e0 ∨ e = { e0 with paused := true }) := by
  rw [pauseRefElem_getElem?] at he
  split at he
  · obtain ⟨e0, he0, rfl⟩ := Option.map_eq_some'.mp he
    exact ⟨e0, he0, Or.inr rfl⟩
  · exact ⟨e, he, Or.inl rfl⟩

/-- Timers after `clearRefTimer`: each slot holds the old timer,
possibly with `cleared` forced to true. -/
theorem clearRefTimer_cases (timers : List CeilingTimer) (r : Option Nat) (j : Nat)
    (c : CeilingTimer) (hc : (clearRefTimer timers r)[j]? = some c) :
    ∃ c0, timers[j]? = some c0 ∧ (c = c0 ∨ c = { c0 with cleared := true }) := by
  rw [clearRefTimer_getElem?] at hc
  split at hc
  · obtain ⟨c0, hc0, rfl⟩ := Option.map_eq_some'.mp hc
    exact ⟨c0, hc0, Or.inr rfl⟩
  · exact ⟨c, hc, Or.inl rfl⟩

theorem invCore_stopAllAudio (s : AppState) (h : InvCore s) : InvCore (stopAllAudio s) := by
  refine ⟨?_, ?_, ?_, ?_, ?_, ?_, ?_, ?_, ?_⟩
  · show (pauseRefElem s.elems s.musicRef).length = (clearRefTimer s.timers s.trackTimerRef).length
    rw [pauseRefElem_length, clearRefTimer_length, h.len_eq]
  · intro t c hc
    obtain ⟨c0, hc0, hcc⟩ := clearRefTimer_cases s.timers s.trackTimerRef t c hc
    have := h.timer_elem t c0 hc0
    rcases hcc with rfl | rfl
    · exact this
    · exact this
  · intro j hj
    exact absurd hj (by simp [stopAllAudio])
  · intro j e c he hc hend
    obtain ⟨e0, he0, hee⟩ := pauseRefElem_cases s.elems s.musicRef j e he
    obtain ⟨c0, hc0, hcc⟩ := clearRefTimer_cases s.timers s.trackTimerRef j c hc
    rcases hee with rfl | rfl
    · rcases hcc with rfl | rfl
      · exact h.ended_safe j e c he0 hc0 hend
      · rcases h.ended_safe j e c0 he0 hc0 hend with hp | hcl | hf
        · exact Or.inl hp
        · exact Or.inr (Or.inl rfl)
        · exact Or.inr (Or.inl rfl)
    · exact Or.inl rfl
  · intro j e he hfe
    obtain ⟨e0, he0, hee⟩ := pauseRefElem_cases s.elems s.musicRef j e he
    rcases hee with rfl | rfl
    · exact h.nat_first j e he0 hfe
    · exact h.nat_first j e0 he0 hfe
  · intro j e he hfe
    obtain ⟨e0, he0, hee⟩ := pauseRefElem_cases s.elems s.musicRef j e he
    rcases hee with rfl | rfl
    · exact h.fresh j e he0 hfe
    · exact h.fresh j e0 he0 hfe
  · intro _ j c hj
    exact absurd hj (by simp [stopAllAudio])
  · intro sess hsess
    exact h.queue_suffix sess hsess
  · intro sess hsess
    exact h.session_frozen sess hsess

/-! ## Preservation of the invariant by every operation -/

theorem invCore_djText (s : AppState) (d : Option String) (h : InvCore s) :
    InvCore { s with djText := d } :=
  ⟨h.len_eq, h.timer_elem, h.ref_timer, h.ended_safe, h.nat_first, h.fresh,
    h.paused_phase, h.queue_suffix, h.session_frozen⟩

theorem inv_startMusic (s : AppState) (next : Track) (rest : List Track)
    (h : InvCore s) (hq : s.queue = next :: rest) : Inv (startMusic next rest s) := by
  have hlen := h.len_eq
  have htimers : (startMusic next rest s).timers
      = s.timers ++ [{ elem := s.elems.length, cleared := false, fired := false }] := rfl
  have helems : (startMusic next rest s).elems = s.elems ++ [newElem next rest] := rfl
  refine ⟨⟨?_, ?_, ?_, ?_, ?_, ?_, ?_, ?_, ?_⟩, ?_⟩
  · rw [htimers, helems]
    simp [hlen]
  · intro t c hc
    rw [htimers, getElem?_concat] at hc
    split at hc
    · exact h.timer_elem t c hc
    · split at hc
      · next h1 h2 =>
          cases Option.some.inj hc
          subst h2
          exact hlen
      · exact absurd hc (by simp)
  · intro j hj
    have hj' : s.elems.length = j := Option.some.inj hj
    subst hj'
    refine ⟨?_, ?_⟩
    · show some s.timers.length = some s.elems.length
      rw [hlen]
    · rw [helems]
      simp
  · intro j e c he hc hend
    rw [helems, getElem?_concat] at he
    rw [htimers, getElem?_concat] at hc
    split at he
    · next hjl =>
        split at hc
        · exact h.ended_safe j e c he hc hend
        · next hjl2 => exact absurd (hlen ▸ hjl) hjl2
    · split at he
      · cases Option.some.inj he
        exact absurd hend (by simp [newElem])
      · exact absurd he (by simp)
  · intro j e he hfe
    rw [helems, getElem?_concat] at he
    split at he
    · exact h.nat_first j e he hfe
    · split at he
      · cases Option.some.inj he
        exact absurd hfe (by simp [newElem])
      · exact absurd he (by simp)
  · intro j e he hfe
    rw [helems, getElem?_concat] at he
    split at he
    · exact h.fresh j e he hfe
    · split at he
      · cases Option.some.inj he
        exact ⟨rfl, rfl, rfl⟩
      · exact absurd he (by simp)
  · intro hp
    exact absurd hp (by simp [startMusic])
  · intro sess hsess
    have := h.queue_suffix sess hsess
    rw [hq] at this
    exact (List.suffix_cons next rest).trans this
  · intro sess hsess
    exact h.session_frozen sess hsess
  · intro _ hnone
    exact absurd hnone (by simp [startMusic])

theorem inv_playNextTrackAux (s : AppState) (h : InvCore s) : Inv (playNextTrackAux s) := by
  unfold playNextTrackAux
  cases hq : s.queue with
  | nil => exact ⟨h, fun _ _ => hq⟩
  | cons next rest => exact inv_startMusic s next rest h hq

theorem inv_playNextTrack (s : AppState) (h : InvCore s) : Inv (playNextTrack s) :=
  inv_playNextTrackAux _ (invCore_djText _ _ (invCore_stopAllAudio s h))

theorem inv_playCommentary (txt : String) (s : AppState) (h : InvCore s) :
    Inv (playCommentary txt s) := by
  have hcore := invCore_stopAllAudio s h
  refine ⟨⟨hcore.len_eq, hcore.timer_elem, hcore.ref_timer, hcore.ended_safe,
    hcore.nat_first, hcore.fresh, ?_, hcore.queue_suffix, hcore.session_frozen⟩, ?_⟩
  · intro hp
    exact absurd hp (by simp [playCommentary])
  · intro hp
    rcases hp with hp | hp <;> exact absurd hp (by simp [playCommentary])

theorem inv_handleTrackEnd (coin : Bool) (fin : Track) (rest : List Track)
    (s : AppState) (h : Inv s) : Inv (handleTrackEnd coin fin rest s) := by
  unfold handleTrackEnd
  split
  · split
    · exact ⟨⟨h.len_eq, h.timer_elem, h.ref_timer, h.ended_safe, h.nat_first, h.fresh,
        h.paused_phase, h.queue_suffix, h.session_frozen⟩, h.paused_ref_none⟩
    · exact inv_playNextTrack s h.toInvCore
  · refine ⟨⟨h.len_eq, h.timer_elem, h.ref_timer, h.ended_safe, h.nat_first, h.fresh,
      ?_, h.queue_suffix, h.session_frozen⟩, ?_⟩
    · intro hp
      exact absurd hp (by simp)
    · intro hp
      rcases hp with hp | hp <;> exact absurd hp (by simp)

theorem inv_handleSkip (s : AppState) (h : Inv s) : Inv (handleSkip s) :=
  inv_playNextTrack _ (invCore_stopAllAudio s h.toInvCore)

theorem inv_genResolveCont (iFail : Bool) (txt : String) (sFail : Bool)
    (job : GenJob) (s1 : AppState) (h : Inv s1) :
    Inv (genResolveCont iFail txt sFail job s1) := by
  unfold genResolveCont
  cases job.rest with
  | nil => exact h
  | cons next r =>
      dsimp only
      split
      · exact inv_playNextTrack _
          ⟨h.len_eq, h.timer_elem, h.ref_timer, h.ended_safe, h.nat_first, h.fresh,
            h.paused_phase, h.queue_suffix, h.session_frozen⟩
      · exact inv_playCommentary _ _ h.toInvCore

theorem inv_genResolve (k : Nat) (iFail : Bool) (txt : String) (sFail : Bool)
    (s : AppState) (h : Inv s) : Inv (genResolve k iFail txt sFail s) := by
  unfold genResolve
  cases hk : s.pendingGens[k]? with
  | none => exact h
  | some job =>
      dsimp only
      split
      · exact h
      · exact inv_genResolveCont iFail txt sFail job _
          ⟨⟨h.len_eq, h.timer_elem, h.ref_timer, h.ended_safe, h.nat_first, h.fresh,
            h.paused_phase, h.queue_suffix, h.session_frozen⟩, h.paused_ref_none⟩

theorem inv_voiceFinish (v : Nat) (s : AppState) (h : Inv s) : Inv (voiceFinishAt v s) := by
  unfold voiceFinishAt
  cases hk : s.voices[v]? with
  | none => exact h
  | some src =>
      dsimp only
      split
      · exact h
      · exact ⟨⟨h.len_eq, h.timer_elem, h.ref_timer, h.ended_safe, h.nat_first, h.fresh,
          h.paused_phase, h.queue_suffix, h.session_frozen⟩, h.paused_ref_none⟩

theorem inv_voiceDeliver (v : Nat) (s : AppState) (h : Inv s) : Inv (voiceDeliverAt v s) := by
  unfold voiceDeliverAt
  cases hk : s.voices[v]? with
  | none => exact h
  | some src =>
      dsimp only
      split
      · exact inv_playNextTrack _
          ⟨h.len_eq, h.timer_elem, h.ref_timer, h.ended_safe, h.nat_first, h.fresh,
            h.paused_phase, h.queue_suffix, h.session_frozen⟩
      · exact h

theorem inv_set_isLoading (s : AppState) (b : Bool) (h : Inv s) :
    Inv { s with isLoading := b } :=
  ⟨⟨h.len_eq, h.timer_elem, h.ref_timer, h.ended_safe, h.nat_first, h.fresh,
    h.paused_phase, h.queue_suffix, h.session_frozen⟩, h.paused_ref_none⟩

theorem inv_set_warns (s : AppState) (n : Nat) (h : Inv s) :
    Inv { s with warns := n } :=
  ⟨⟨h.len_eq, h.timer_elem, h.ref_timer, h.ended_safe, h.nat_first, h.fresh,
    h.paused_phase, h.queue_suffix, h.session_frozen⟩, h.paused_ref_none⟩

theorem invCore_set_isLoading (s : AppState) (b : Bool) (h : InvCore s) :
    InvCore { s with isLoading := b } :=
  ⟨h.len_eq, h.timer_elem, h.ref_timer, h.ended_safe, h.nat_first, h.fresh,
    h.paused_phase, h.queue_suffix, h.session_frozen⟩

theorem invCore_set_warns (s : AppState) (n : Nat) (h : InvCore s) :
    InvCore { s with warns := n } :=
  ⟨h.len_eq, h.timer_elem, h.ref_timer, h.ended_safe, h.nat_first, h.fresh,
    h.paused_phase, h.queue_suffix, h.session_frozen⟩

/-- Aborting to IDLE with a surfaced alert preserves the invariant. -/
theorem inv_abort (s : AppState) (msg : String) (h : InvCore s) :
    Inv { s with alerts := s.alerts ++ [msg], playbackState := PlaybackState.IDLE } := by
  refine ⟨⟨h.len_eq, h.timer_elem, h.ref_timer, h.ended_safe, h.nat_first, h.fresh,
    ?_, h.queue_suffix, h.session_frozen⟩, ?_⟩
  · intro hp
    exact absurd hp (by simp)
  · intro hp
    rcases hp with hp | hp <;> exact absurd hp (by simp)

/-- Installing a fresh session record with the full track list as queue
preserves the core invariant (the new queue is a suffix of the new
session track list, and the new record is frozen at creation values). -/
theorem invCore_newSession (s : AppState) (h : InvCore s)
    (hidle : s.playbackState = PlaybackState.IDLE) (prompt : String) (tracks : List Track) :
    InvCore { s with
      session := some { mood := prompt, tracks := tracks, currentTrackIndex := -1, history := [] }
      queue := tracks } := by
  refine ⟨h.len_eq, h.timer_elem, h.ref_timer, h.ended_safe, h.nat_first, h.fresh, ?_, ?_, ?_⟩
  · intro hp
    have hp' : s.playbackState = PlaybackState.PAUSED := hp
    rw [hidle] at hp'
    exact absurd hp' (by decide)
  · intro sess hsess
    cases Option.some.inj hsess
    exact List.suffix_refl tracks
  · intro sess hsess
    cases Option.some.inj hsess
    exact ⟨rfl, rfl⟩

theorem inv_startSession (prompt : String) (rf : Bool) (pl : Option (List Track × String))
    (sf : Bool) (s : AppState) (hidle : s.playbackState = PlaybackState.IDLE)
    (h : Inv s) : Inv (startSession prompt rf pl sf s) := by
  have h0 : Inv (if rf then { s with warns := s.warns + 1 } else s) := by
    cases rf
    · exact h
    · exact inv_set_warns s _ h
  have hidle0 : (if rf then { s with warns := s.warns + 1 } else s).playbackState
      = PlaybackState.IDLE := by
    cases rf
    · exact hidle
    · exact hidle
  set s0 := if rf then { s with warns := s.warns + 1 } else s with hs0
  have h1 : Inv { s0 with isLoading := true } := inv_set_isLoading s0 true h0
  cases pl with
  | none =>
      exact inv_set_isLoading _ false (inv_abort { s0 with isLoading := true } startErrorAlert
        h1.toInvCore)
  | some p =>
      obtain ⟨tracks, intro⟩ := p
      have hcore : InvCore { { s0 with isLoading := true } with
          session := some { mood := prompt, tracks := tracks, currentTrackIndex := -1, history := [] }
          queue := tracks } :=
        invCore_newSession { s0 with isLoading := true } h1.toInvCore hidle0 prompt tracks
      cases sf
      · exact inv_set_isLoading _ false (inv_playCommentary intro _ hcore)
      · exact inv_set_isLoading _ false (inv_abort _ startErrorAlert hcore)

theorem inv_toggle (s : AppState) (h : Inv s) : Inv (handleTogglePlay s) := by
  unfold handleTogglePlay
  cases hp : s.playbackState with
  | PLAYING_TRACK =>
      dsimp only
      refine ⟨⟨?_, ?_, ?_, ?_, ?_, ?_, ?_, ?_, ?_⟩, ?_⟩
      · show (pauseRefElem s.elems s.musicRef).length = (clearRefTimer s.timers s.trackTimerRef).length
        rw [pauseRefElem_length, clearRefTimer_length, h.len_eq]
      · intro t c hc
        obtain ⟨c0, hc0, hcc⟩ := clearRefTimer_cases s.timers s.trackTimerRef t c hc
        have := h.timer_elem t c0 hc0
        rcases hcc with rfl | rfl
        · exact this
        · exact this
      · intro j hj
        have hj' : s.musicRef = some j := hj
        obtain ⟨h1, h2⟩ := h.ref_timer j hj'
        refine ⟨h1, ?_⟩
        show j < (pauseRefElem s.elems s.musicRef).length
        rw [pauseRefElem_length]
        exact h2
      · intro j e c he hc hend
        obtain ⟨e0, he0, hee⟩ := pauseRefElem_cases s.elems s.musicRef j e he
        obtain ⟨c0, hc0, hcc⟩ := clearRefTimer_cases s.timers s.trackTimerRef j c hc
        rcases hee with rfl | rfl
        · rcases hcc with rfl | rfl
          · exact h.ended_safe j e c he0 hc0 hend
          · rcases h.ended_safe j e c0 he0 hc0 hend with h' | h' | h'
            · exact Or.inl h'
            · exact Or.inr (Or.inl rfl)
            · exact Or.inr (Or.inl rfl)
        · exact Or.inl rfl
      · intro j e he hfe
        obtain ⟨e0, he0, hee⟩ := pauseRefElem_cases s.elems s.musicRef j e he
        rcases hee with rfl | rfl
        · exact h.nat_first j e he0 hfe
        · exact h.nat_first j e0 he0 hfe
      · intro j e he hfe
        obtain ⟨e0, he0, hee⟩ := pauseRefElem_cases s.elems s.musicRef j e he
        rcases hee with rfl | rfl
        · exact h.fresh j e he0 hfe
        · exact h.fresh j e0 he0 hfe
      · intro _ j c hj hc
        have hj' : s.musicRef = some j := hj
        obtain ⟨ht, _⟩ := h.ref_timer j hj'
        rw [show (clearRefTimer s.timers s.trackTimerRef) = clearRefTimer s.timers (some j) from by rw [ht]] at hc
        rw [clearRefTimer_getElem?] at hc
        rw [if_pos rfl] at hc
        obtain ⟨c0, _, rfl⟩ := Option.map_eq_some'.mp hc
        exact Or.inl rfl
      · intro sess hsess
        exact h.queue_suffix sess hsess
      · intro sess hsess
        exact h.session_frozen sess hsess
      · intro _ hnone
        have hnone' : s.musicRef = none := hnone
        exact h.paused_ref_none (Or.inl hp) hnone'
  | PAUSED =>
      dsimp only
      cases hr : s.musicRef with
      | some j =>
          dsimp only
          refine ⟨⟨?_, h.timer_elem, ?_, ?_, ?_, ?_, ?_, h.queue_suffix, h.session_frozen⟩, ?_⟩
          · show (updateAt s.elems j _).length = s.timers.length
            rw [length_updateAt]
            exact h.len_eq
          · intro j' hj'
            have hj'' : some j = some j' := hj'
            cases Option.some.inj hj''
            obtain ⟨h1, h2⟩ := h.ref_timer j hr
            refine ⟨h1, ?_⟩
            show j < (updateAt s.elems j _).length
            rw [length_updateAt]
            exact h2
          · intro j' e c he hc hend
            have he' : (updateAt s.elems j (fun e => { e with paused := false }))[j']? = some e := he
            rw [getElem?_updateAt] at he'
            split at he'
            · next hjj =>
                subst hjj
                obtain ⟨e0, he0, rfl⟩ := Option.map_eq_some'.mp he'
                have := h.paused_phase hp j' c hr hc
                rcases this with h' | h'
                · exact Or.inr (Or.inl h')
                · exact Or.inr (Or.inr h')
            · exact h.ended_safe j' e c he' hc hend
          · intro j' e he hfe
            have he' : (updateAt s.elems j (fun e => { e with paused := false }))[j']? = some e := he
            rw [getElem?_updateAt] at he'
            split at he'
            · obtain ⟨e0, he0, rfl⟩ := Option.map_eq_some'.mp he'
              exact h.nat_first _ e0 he0 hfe
            · exact h.nat_first _ e he' hfe
          · intro j' e he hfe
            have he' : (updateAt s.elems j (fun e => { e with paused := false }))[j']? = some e := he
            rw [getElem?_updateAt] at he'
            split at he'
            · obtain ⟨e0, he0, rfl⟩ := Option.map_eq_some'.mp he'
              exact h.fresh _ e0 he0 hfe
            · exact h.fresh _ e he' hfe
          · intro hp'
            exact absurd hp' (by simp)
          · intro _ hnone
            have hnone' : some j = (none : Option Nat) := hnone
            exact absurd hnone' (by simp)
      | none =>
          dsimp only
          refine inv_playNextTrack _ ⟨h.len_eq, h.timer_elem, ?_, h.ended_safe,
            h.nat_first, h.fresh, ?_, h.queue_suffix, h.session_frozen⟩
          · intro j' hj'
            exact absurd (show (none : Option Nat) = some j' from hj') (by simp)
          · intro hp'
            exact absurd hp' (by simp)
  | IDLE => exact h
  | LOADING_SESSION => exact h
  | PLAYING_COMMENTARY => exact h

theorem inv_musicEnd (j : Nat) (coin : Bool) (s : AppState) (h : Inv s) :
    Inv (musicEndAt j coin s) := by
  unfold musicEndAt
  cases hk : s.elems[j]? with
  | none => exact h
  | some e =>
      dsimp only
      split
      · exact h
      · next hcond =>
          have hpe : e.paused = false ∧ e.ended = false := by
            revert hcond
            cases e.paused <;> cases e.ended <;> simp
          refine inv_handleTrackEnd _ _ _ _
            ⟨⟨?_, h.timer_elem, ?_, ?_, ?_, ?_, h.paused_phase, h.queue_suffix,
              h.session_frozen⟩, h.paused_ref_none⟩
          · show (updateAt s.elems j _).length = s.timers.length
            rw [length_updateAt]
            exact h.len_eq
          · intro j' hj'
            obtain ⟨h1, h2⟩ := h.ref_timer j' hj'
            refine ⟨h1, ?_⟩
            show j' < (updateAt s.elems j _).length
            rw [length_updateAt]
            exact h2
          · intro j' e2 c he hc hend
            have he' : (updateAt s.elems j (fun _ => naturalEndElem e))[j']? = some e2 := he
            rw [getElem?_updateAt] at he'
            split at he'
            · obtain ⟨e0, he0, rfl⟩ := Option.map_eq_some'.mp he'
              exact Or.inl rfl
            · exact h.ended_safe j' e2 c he' hc hend
          · intro j' e2 he hfe
            have he' : (updateAt s.elems j (fun _ => naturalEndElem e))[j']? = some e2 := he
            rw [getElem?_updateAt] at he'
            split at he'
            · next hjj =>
                subst hjj
                obtain ⟨e0, he0, rfl⟩ := Option.map_eq_some'.mp he'
                rw [hk] at he0
                cases Option.some.inj he0
                cases hfe2 : e.firstEnd with
                | none =>
                    obtain ⟨hc0, hta, _⟩ := h.fresh j' e hk hfe2
                    refine ⟨rfl, ?_, ?_⟩
                    · show e.endCount + 1 = 1
                      rw [hc0]
                    · show e.timerActed = false
                      exact hta
                | some src =>
                    cases src with
                    | natural =>
                        have := (h.nat_first j' e hk hfe2).1
                        rw [hpe.2] at this
                        exact absurd this (by decide)
                    | ceiling =>
                        have : (naturalEndElem e).firstEnd = some EndSource.ceiling := by
                          show (match e.firstEnd with
                            | none => some EndSource.natural | some x => some x) = _
                          rw [hfe2]
                        rw [this] at hfe
                        exact absurd (Option.some.inj hfe) (by decide)
            · exact h.nat_first j' e2 he' hfe
          · intro j' e2 he hfe
            have he' : (updateAt s.elems j (fun _ => naturalEndElem e))[j']? = some e2 := he
            rw [getElem?_updateAt] at he'
            split at he'
            · obtain ⟨e0, he0, rfl⟩ := Option.map_eq_some'.mp he'
              have : (naturalEndElem e).firstEnd ≠ none := by
                show (match e.firstEnd with
                  | none => some EndSource.natural | some x => some x) ≠ none
                cases e.firstEnd <;> simp
              exact absurd hfe this
            · exact h.fresh j' e2 he' hfe

/-- Marking a ceiling timer as fired preserves the invariant. -/
theorem inv_timerMark (t : Nat) (s : AppState) (h : Inv s) :
    Inv { s with timers := updateAt s.timers t (fun x => { x with fired := true }) } := by
  refine ⟨⟨?_, ?_, h.ref_timer, ?_, h.nat_first, h.fresh, ?_, h.queue_suffix,
    h.session_frozen⟩, h.paused_ref_none⟩
  · show s.elems.length = (updateAt s.timers t _).length
    rw [length_updateAt]
    exact h.len_eq
  · intro t' c hc
    have hc' : (updateAt s.timers t (fun x => { x with fired := true }))[t']? = some c := hc
    rw [getElem?_updateAt] at hc'
    split at hc'
    · obtain ⟨c0, hc0, rfl⟩ := Option.map_eq_some'.mp hc'
      exact h.timer_elem t' c0 hc0
    · exact h.timer_elem t' c hc'
  · intro j' e c he hc hend
    have hc' : (updateAt s.timers t (fun x => { x with fired := true }))[j']? = some c := hc
    rw [getElem?_updateAt] at hc'
    split at hc'
    · obtain ⟨c0, hc0, rfl⟩ := Option.map_eq_some'.mp hc'
      exact Or.inr (Or.inr rfl)
    · exact h.ended_safe j' e c he hc' hend
  · intro hp j' c hj hc
    have hc' : (updateAt s.timers t (fun x => { x with fired := true }))[j']? = some c := hc
    rw [getElem?_updateAt] at hc'
    split at hc'
    · obtain ⟨c0, hc0, rfl⟩ := Option.map_eq_some'.mp hc'
      exact Or.inr rfl
    · exact h.paused_phase hp j' c hj hc'

theorem inv_timerFire (t : Nat) (coin : Bool) (s : AppState) (h : Inv s) :
    Inv (timerFireAt t coin s) := by
  unfold timerFireAt
  cases hk : s.timers[t]? with
  | none => exact h
  | some c =>
      dsimp only
      split
      · exact h
      · next hcond =>
          have hcf : c.cleared = false ∧ c.fired = false := by
            revert hcond
            cases c.cleared <;> cases c.fired <;> simp
          have helem : c.elem = t := h.timer_elem t c hk
          have h1 := inv_timerMark t s h
          cases hk2 : ({ s with timers := updateAt s.timers t (fun x => { x with fired := true }) }).elems[c.elem]? with
          | none => exact h1
          | some e =>
              dsimp only
              have hke : s.elems[c.elem]? = some e := hk2
              split
              · exact h1
              · next hpe' =>
                  have hpe : e.paused = false := by
                    revert hpe'
                    cases e.paused <;> simp
                  refine inv_handleTrackEnd _ _ _ _
                    ⟨⟨?_, h1.timer_elem, ?_, ?_, ?_, ?_, h1.paused_phase, h1.queue_suffix,
                      h1.session_frozen⟩, h1.paused_ref_none⟩
                  · show (updateAt s.elems c.elem _).length
                      = (updateAt s.timers t _).length
                    rw [length_updateAt, length_updateAt]
                    exact h.len_eq
                  · intro j' hj'
                    obtain ⟨hh1, hh2⟩ := h.ref_timer j' hj'
                    refine ⟨hh1, ?_⟩
                    show j' < (updateAt s.elems c.elem _).length
                    rw [length_updateAt]
                    exact hh2
                  · intro j' e2 c2 he hc hend
                    have he' : (updateAt s.elems c.elem (fun _ => ceilingEndElem e))[j']? = some e2 := he
                    rw [getElem?_updateAt] at he'
                    split at he'
                    · obtain ⟨e0, he0, rfl⟩ := Option.map_eq_some'.mp he'
                      exact Or.inl rfl
                    · exact h1.ended_safe j' e2 c2 he' hc hend
                  · intro j' e2 he hfe
                    have he' : (updateAt s.elems c.elem (fun _ => ceilingEndElem e))[j']? = some e2 := he
                    rw [getElem?_updateAt] at he'
                    split at he'
                    · next hjj =>
                        subst hjj
                        obtain ⟨e0, he0, rfl⟩ := Option.map_eq_some'.mp he'
                        rw [hke] at he0
                        cases Option.some.inj he0
                        cases hfe2 : e.firstEnd with
                        | none =>
                            have : (ceilingEndElem e).firstEnd = some EndSource.ceiling := by
                              show (match e.firstEnd with
                                | none => some EndSource.ceiling | some x => some x) = _
                              rw [hfe2]
                            rw [this] at hfe
                            exact absurd (Option.some.inj hfe) (by decide)
                        | some src =>
                            cases src with
                            | natural =>
                                have hket : s.elems[t]? = some e := helem ▸ hke
                                have hnat := h.nat_first t e hket hfe2
                                rcases h.ended_safe t e c hket hk hnat.1 with h' | h' | h'
                                · rw [hpe] at h'
                                  exact absurd h' (by decide)
                                · rw [hcf.1] at h'
                                  exact absurd h' (by decide)
                                · rw [hcf.2] at h'
                                  exact absurd h' (by decide)
                            | ceiling =>
                                have : (ceilingEndElem e).firstEnd = some EndSource.ceiling := by
                                  show (match e.firstEnd with
                                    | none => some EndSource.ceiling | some x => some x) = _
                                  rw [hfe2]
                                rw [this] at hfe
                                exact absurd (Option.some.inj hfe) (by decide)
                    · exact h1.nat_first j' e2 he' hfe
                  · intro j' e2 he hfe
                    have he' : (updateAt s.elems c.elem (fun _ => ceilingEndElem e))[j']? = some e2 := he
                    rw [getElem?_updateAt] at he'
                    split at he'
                    · obtain ⟨e0, he0, rfl⟩ := Option.map_eq_some'.mp he'
                      have : (ceilingEndElem e).firstEnd ≠ none := by
                        show (match e.firstEnd with
                          | none => some EndSource.ceiling | some x => some x) ≠ none
                        cases e.firstEnd <;> simp
                      exact absurd hfe this
                    · exact h1.fresh j' e2 he' hfe

theorem inv_applyEv (e : Ev) (s : AppState) (h : Inv s) : Inv (applyEv e s) := by
  cases e with
  | start p rf pl sf =>
      dsimp only [applyEv]
      split
      · next hidle => exact inv_startSession p rf pl sf s hidle h
      · exact h
  | skip =>
      dsimp only [applyEv]
      split
      · exact h
      · exact inv_handleSkip s h
  | toggle =>
      dsimp only [applyEv]
      split
      · exact h
      · exact inv_toggle s h
  | musicEnd j coin => exact inv_musicEnd j coin s h
  | timerFire t coin => exact inv_timerFire t coin s h
  | voiceFinish v => exact inv_voiceFinish v s h
  | voiceDeliver v => exact inv_voiceDeliver v s h
  | genDone k iFail txt sFail => exact inv_genResolve k iFail txt sFail s h

theorem inv_initState : Inv initState := by
  refine ⟨⟨rfl, ?_, ?_, ?_, ?_, ?_, ?_, ?_, ?_⟩, ?_⟩
  · intro t c hc
    exact absurd hc (by simp [initState])
  · intro j hj
    exact absurd hj (by simp [initState])
  · intro j e c he hc hend
    exact absurd he (by simp [initState])
  · intro j e he hfe
    exact absurd he (by simp [initState])
  · intro j e he hfe
    exact absurd he (by simp [initState])
  · intro hp
    exact absurd hp (by simp [initState])
  · intro sess hsess
    exact absurd hsess (by simp [initState])
  · intro sess hsess
    exact absurd hsess (by simp [initState])
  · intro _ _
    rfl

/-- Every reachable orchestrator state satisfies the invariant. -/
theorem invariant_reachable (s : AppState) (h : Reachable s) : Inv s := by
  induction h with
  | init => exact inv_initState
  | next e s hs ih => exact inv_applyEv e s ih

/-! ## Observable behaviour of the operations -/

theorem playNextTrack_alerts (s : AppState) : (playNextTrack s).alerts = s.alerts := by
  unfold playNextTrack playNextTrackAux
  cases hq : ({ stopAllAudio s with djText := none }).queue <;> rfl

theorem playNextTrack_session (s : AppState) : (playNextTrack s).session = s.session := by
  unfold playNextTrack playNextTrackAux
  cases hq : ({ stopAllAudio s with djText := none }).queue <;> rfl

theorem playNextTrack_pendingGens (s : AppState) :
    (playNextTrack s).pendingGens = s.pendingGens := by
  unfold playNextTrack playNextTrackAux
  cases hq : ({ stopAllAudio s with djText := none }).queue <;> rfl

theorem playNextTrack_voices_length (s : AppState) :
    (playNextTrack s).voices.length = s.voices.length := by
  unfold playNextTrack playNextTrackAux
  cases hq : ({ stopAllAudio s with djText := none }).queue <;>
    simp [startMusic, stopAllAudio, stopRefVoice_length]

theorem playNextTrack_queue (s : AppState) : (playNextTrack s).queue = s.queue.drop 1 := by
  unfold playNextTrack playNextTrackAux
  cases hq : ({ stopAllAudio s with djText := none }).queue with
  | nil =>
      have h0 : s.queue = [] := hq
      show s.queue = s.queue.drop 1
      rw [h0]
      rfl
  | cons q qs =>
      have h0 : s.queue = q :: qs := hq
      show qs = s.queue.drop 1
      rw [h0]
      rfl

theorem playNextTrack_pop (s : AppState) (q : Track) (qs : List Track)
    (hq : s.queue = q :: qs) :
    (playNextTrack s).playbackState = PlaybackState.PLAYING_TRACK ∧
    (playNextTrack s).currentTrack = some q ∧
    (playNextTrack s).queue = qs := by
  unfold playNextTrack playNextTrackAux
  have hq' : ({ stopAllAudio s with djText := none }).queue = q :: qs := hq
  rw [hq']
  exact ⟨rfl, rfl, rfl⟩

theorem playNextTrack_phase (s : AppState) :
    (playNextTrack s).playbackState
      = (match s.queue with
          | [] => s.playbackState
          | _ :: _ => PlaybackState.PLAYING_TRACK) := by
  unfold playNextTrack playNextTrackAux
  cases hq : ({ stopAllAudio s with djText := none }).queue with
  | nil =>
      have h0 : s.queue = [] := hq
      rw [h0]
      rfl
  | cons q qs =>
      have h0 : s.queue = q :: qs := hq
      rw [h0]
      rfl

theorem playNextTrack_current (s : AppState) :
    (playNextTrack s).currentTrack
      = (match s.queue with
          | [] => s.currentTrack
          | q :: _ => some q) := by
  unfold playNextTrack playNextTrackAux
  cases hq : ({ stopAllAudio s with djText := none }).queue with
  | nil =>
      have h0 : s.queue = [] := hq
      rw [h0]
      rfl
  | cons q qs =>
      have h0 : s.queue = q :: qs := hq
      rw [h0]
      rfl

/-- On an empty queue `playNextTrack` reduces to teardown plus clearing
the commentary text. -/
theorem playNextTrack_empty (s : AppState) (hq : s.queue = []) :
    playNextTrack s = { stopAllAudio s with djText := none } := by
  unfold playNextTrack playNextTrackAux
  have hq' : ({ stopAllAudio s with djText := none }).queue = [] := hq
  rw [hq']

theorem handleSkip_queue (s : AppState) : (handleSkip s).queue = s.queue.drop 1 :=
  playNextTrack_queue (stopAllAudio s)

theorem handleSkip_pendingGens (s : AppState) :
    (handleSkip s).pendingGens = s.pendingGens :=
  playNextTrack_pendingGens (stopAllAudio s)

theorem handleSkip_session (s : AppState) : (handleSkip s).session = s.session :=
  playNextTrack_session (stopAllAudio s)

theorem handleSkip_voices_length (s : AppState) :
    (handleSkip s).voices.length = s.voices.length := by
  show (playNextTrack (stopAllAudio s)).voices.length = s.voices.length
  rw [playNextTrack_voices_length (stopAllAudio s)]
  exact stopRefVoice_length s.voices s.voiceRef

theorem handleSkip_pop (s : AppState) (q : Track) (qs : List Track) (hq : s.queue = q :: qs) :
    (handleSkip s).playbackState = PlaybackState.PLAYING_TRACK ∧
    (handleSkip s).currentTrack = some q ∧
    (handleSkip s).queue = qs :=
  playNextTrack_pop (stopAllAudio s) q qs hq

theorem handleSkip_empty_phase (s : AppState) (hq : s.queue = []) :
    (handleSkip s).playbackState = s.playbackState := by
  unfold handleSkip
  rw [playNextTrack_empty (stopAllAudio s) hq]
  rfl

theorem skipN_queue (n : Nat) (s : AppState) : (skipN n s).queue = s.queue.drop n := by
  induction n generalizing s with
  | zero => rfl
  | succ n ih =>
      show (skipN n (handleSkip s)).queue = _
      rw [ih, handleSkip_queue, List.drop_drop, Nat.add_comm 1 n]

theorem skipN_pendingGens (n : Nat) (s : AppState) :
    (skipN n s).pendingGens = s.pendingGens := by
  induction n generalizing s with
  | zero => rfl
  | succ n ih =>
      show (skipN n (handleSkip s)).pendingGens = _
      rw [ih, handleSkip_pendingGens]

theorem skipN_session (n : Nat) (s : AppState) : (skipN n s).session = s.session := by
  induction n generalizing s with
  | zero => rfl
  | succ n ih =>
      show (skipN n (handleSkip s)).session = _
      rw [ih, handleSkip_session]

theorem skipN_voices_length (n : Nat) (s : AppState) :
    (skipN n s).voices.length = s.voices.length := by
  induction n generalizing s with
  | zero => rfl
  | succ n ih =>
      show (skipN n (handleSkip s)).voices.length = _
      rw [ih, handleSkip_voices_length]

theorem skipN_phase_playing (n : Nat) (s : AppState)
    (hp : s.playbackState = PlaybackState.PLAYING_TRACK) :
    (skipN n s).playbackState = PlaybackState.PLAYING_TRACK := by
  induction n generalizing s with
  | zero => exact hp
  | succ n ih =>
      show (skipN n (handleSkip s)).playbackState = _
      cases hq : s.queue with
      | nil => exact ih _ ((handleSkip_empty_phase s hq).trans hp)
      | cons q qs => exact ih _ (handleSkip_pop s q qs hq).1

theorem skipN_empty_phase (n : Nat) (s : AppState) (hq : s.queue = []) :
    (skipN n s).playbackState = s.playbackState := by
  induction n generalizing s with
  | zero => rfl
  | succ n ih =>
      show (skipN n (handleSkip s)).playbackState = _
      have hq' : (handleSkip s).queue = [] := by rw [handleSkip_queue, hq]; rfl
      rw [ih _ hq']
      exact handleSkip_empty_phase s hq

theorem skipN_phase_pop (n : Nat) (s : AppState) (hn : 1 ≤ n) (hq : s.queue ≠ []) :
    (skipN n s).playbackState = PlaybackState.PLAYING_TRACK := by
  cases n with
  | zero => omega
  | succ n =>
      show (skipN n (handleSkip s)).playbackState = _
      cases hq2 : s.queue with
      | nil => exact absurd hq2 hq
      | cons q qs => exact skipN_phase_playing n _ (handleSkip_pop s q qs hq2).1

theorem playCommentary_facts (txt : String) (s : AppState) :
    (playCommentary txt s).playbackState = PlaybackState.PLAYING_COMMENTARY ∧
    (playCommentary txt s).djText = some txt ∧
    (playCommentary txt s).alerts = s.alerts ∧
    (playCommentary txt s).queue = s.queue ∧
    (playCommentary txt s).session = s.session ∧
    (playCommentary txt s).voiceRef = some s.voices.length ∧
    (playCommentary txt s).voices[s.voices.length]?
      = some { stopped := false, endedDelivered := false } := by
  refine ⟨rfl, rfl, rfl, rfl, rfl, ?_, ?_⟩
  · show some (stopRefVoice s.voices s.voiceRef).length = some s.voices.length
    rw [stopRefVoice_length]
  · show (stopRefVoice s.voices s.voiceRef ++ [_])[s.voices.length]? = _
    rw [getElem?_concat, stopRefVoice_length]
    simp

theorem voiceFinishAt_fresh (v : Nat) (s : AppState)
    (hv : s.voices[v]? = some { stopped := false, endedDelivered := false }) :
    voiceFinishAt v s
      = { s with voices := updateAt s.voices v (fun x => { x with stopped := true }) } := by
  unfold voiceFinishAt
  rw [hv]
  rfl

theorem voiceDeliverAt_pending (v : Nat) (s : AppState)
    (hv : s.voices[v]? = some { stopped := true, endedDelivered := false }) :
    voiceDeliverAt v s
      = playNextTrack
          { s with voices := updateAt s.voices v (fun x => { x with endedDelivered := true }) } := by
  unfold voiceDeliverAt
  rw [hv]
  rfl

/-- The full voice life cycle on a fresh source: once it finishes and
its pending completion is delivered, the orchestrator advances to the
next track of the live queue. -/
theorem voice_cycle (v : Nat) (s : AppState)
    (hv : s.voices[v]? = some { stopped := false, endedDelivered := false }) :
    (voiceDeliverAt v (voiceFinishAt v s)).queue = s.queue.drop 1 ∧
    (∀ q qs, s.queue = q :: qs →
      (voiceDeliverAt v (voiceFinishAt v s)).playbackState = PlaybackState.PLAYING_TRACK ∧
      (voiceDeliverAt v (voiceFinishAt v s)).currentTrack = some q) := by
  rw [voiceFinishAt_fresh v s hv]
  have hv2 : (updateAt s.voices v (fun x => { x with stopped := true }))[v]?
      = some { stopped := true, endedDelivered := false } := by
    rw [getElem?_updateAt, if_pos rfl, hv]
    rfl
  rw [voiceDeliverAt_pending v _ hv2]
  refine ⟨?_, ?_⟩
  · rw [playNextTrack_queue]
  · intro q qs hq
    refine ⟨?_, ?_⟩
    · rw [playNextTrack_phase]
      dsimp only
      rw [hq]
    · rw [playNextTrack_current]
      dsimp only
      rw [hq]

/-! ## Concrete traces used as witnesses and counterexamples -/

def tA : Track :=
  { id := "a", title := "Alpha", artist := "ArtA", album := "AlbumA", duration := 30000,
    coverUrl := "coverA", moodTag := "chill", reason := none, previewUrl := some "urlA" }

def tB : Track :=
  { id := "b", title := "Beta", artist := "ArtB", album := "AlbumB", duration := 30000,
    coverUrl := "coverB", moodTag := "warm", reason := none, previewUrl := none }

/-- Session start with a two-track playlist; the intro commentary is
playing. -/
def demoStart : AppState :=
  applyEv (Ev.start "late night drive" false (some ([tA, tB], "intro")) false) initState

/-- The intro commentary finished naturally and its completion was
delivered: the first track is playing, one track queued. -/
def demoPlaying : AppState :=
  applyEv (Ev.voiceDeliver 0) (applyEv (Ev.voiceFinish 0) demoStart)

/-- The user paused the first track. -/
def demoPaused : AppState := applyEv Ev.toggle demoPlaying

/-- The first track completed naturally (coin selects direct advance). -/
def demoNatEnd : AppState := applyEv (Ev.musicEnd 0 false) demoPlaying

/-- The session record created by `demoStart`. -/
def demoSess : DJSession :=
  { mood := "late night drive", tracks := [tA, tB], currentTrackIndex := -1, history := [] }

/-- Skip pressed while the intro commentary is still playing. -/
def skipDuringCommentary : AppState := applyEv Ev.skip demoStart

/-- After the skip, the stopped voice source's still-attached completion
callback is delivered. -/
def staleVoiceFired : AppState := applyEv (Ev.voiceDeliver 0) skipDuringCommentary

/-- Session start whose playlist came back empty; the intro commentary
is playing over an empty queue. -/
def emptyPlaylistStart : AppState :=
  applyEv (Ev.start "m" false (some ([], "welcome")) false) initState

theorem reach_demoStart : Reachable demoStart :=
  Reachable.next _ _ Reachable.init

theorem reach_demoPlaying : Reachable demoPlaying :=
  Reachable.next _ _ (Reachable.next _ _ reach_demoStart)

theorem reach_demoPaused : Reachable demoPaused :=
  Reachable.next _ _ reach_demoPlaying

theorem reach_demoNatEnd : Reachable demoNatEnd :=
  Reachable.next _ _ reach_demoPlaying

theorem reach_staleVoiceFired : Reachable staleVoiceFired :=
  Reachable.next _ _ (Reachable.next _ _ reach_demoStart)

theorem reach_emptyPlaylistStart : Reachable emptyPlaylistStart :=
  Reachable.next _ _ Reachable.init

/-! ## The claims -/

/-- C7: invoking togglePlay in any phase other than PLAYING_TRACK or
PAUSED (in particular during PLAYING_COMMENTARY or LOADING_SESSION) is
a no-op that leaves the whole state unchanged; from PLAYING_TRACK it
suspends the music channel element, cancels the outstanding ceiling
timer, and sets phase PAUSED, touching neither the queue, the current
track, the music ref, nor the number of music elements; from PAUSED it
sets phase PLAYING_TRACK and resumes the very same music element (same
ref, no new element created, queue untouched — no re-fetch and no
restart). -/
theorem c7_toggle_play (s : AppState) (hr : Reachable s) :
    ((s.playbackState ≠ PlaybackState.PLAYING_TRACK ∧
      s.playbackState ≠ PlaybackState.PAUSED) → handleTogglePlay s = s) ∧
    (s.playbackState = PlaybackState.PLAYING_TRACK →
      (handleTogglePlay s).playbackState = PlaybackState.PAUSED ∧
      (handleTogglePlay s).musicRef = s.musicRef ∧
      (handleTogglePlay s).elems.length = s.elems.length ∧
      (handleTogglePlay s).queue = s.queue ∧
      (handleTogglePlay s).currentTrack = s.currentTrack ∧
      (∀ j e, s.musicRef = some j → s.elems[j]? = some e →
        (handleTogglePlay s).elems[j]? = some { e with paused := true }) ∧
      (∀ t c, s.trackTimerRef = some t → s.timers[t]? = some c →
        (handleTogglePlay s).timers[t]? = some { c with cleared := true })) ∧
    (s.playbackState = PlaybackState.PAUSED →
      (handleTogglePlay s).playbackState = PlaybackState.PLAYING_TRACK ∧
      (handleTogglePlay s).musicRef = s.musicRef ∧
      (handleTogglePlay s).elems.length = s.elems.length ∧
      (handleTogglePlay s).queue = s.queue ∧
      (handleTogglePlay s).currentTrack = s.currentTrack ∧
      (∀ j e, s.musicRef = some j → s.elems[j]? = some e →
        (handleTogglePlay s).elems[j]? = some { e with paused := false })) := by
  have hinv := invariant_reachable s hr
  cases hp : s.playbackState with
  | PLAYING_TRACK =>
      refine ⟨?_, ?_, ?_⟩
      · intro hne
        exact absurd rfl hne.1
      · intro _
        unfold handleTogglePlay
        rw [hp]
        refine ⟨rfl, rfl, ?_, rfl, rfl, ?_, ?_⟩
        · show (pauseRefElem s.elems s.musicRef).length = s.elems.length
          exact pauseRefElem_length s.elems s.musicRef
        · intro j e hj he
          show (pauseRefElem s.elems s.musicRef)[j]? = _
          rw [pauseRefElem_getElem?, if_pos hj, he]
          rfl
        · intro t c ht hc
          show (clearRefTimer s.timers s.trackTimerRef)[t]? = _
          rw [clearRefTimer_getElem?, if_pos ht, hc]
          rfl
      · intro hP
        exact absurd hP (by decide)
  | PAUSED =>
      refine ⟨?_, ?_, ?_⟩
      · intro hne
        exact absurd rfl hne.2
      · intro hP
        exact absurd hP (by decide)
      · intro _
        unfold handleTogglePlay
        rw [hp]
        dsimp only
        cases hr2 : s.musicRef with
        | some j =>
            dsimp only
            refine ⟨rfl, rfl, ?_, rfl, rfl, ?_⟩
            · show (updateAt s.elems j _).length = s.elems.length
              exact length_updateAt s.elems j _
            · intro j' e hj' he
              have : some j = some j' := hr2 ▸ hj'
              cases Option.some.inj this
              show (updateAt s.elems j _)[j]? = _
              rw [getElem?_updateAt, if_pos rfl, he]
              rfl
        | none =>
            dsimp only
            have hq : ({ s with
                playbackState := PlaybackState.PLAYING_TRACK
                musicRef := none } : AppState).queue = [] :=
              hinv.paused_ref_none (Or.inr hp) hr2
            rw [playNextTrack_empty _ hq]
            refine ⟨rfl, rfl, rfl, rfl, rfl, ?_⟩
            intro j' e hj' he
            exact absurd hj' (by simp)
  | IDLE =>
      refine ⟨?_, ?_, ?_⟩
      · intro _
        unfold handleTogglePlay
        rw [hp]
      · intro hP
        exact absurd hP (by decide)
      · intro hP
        exact absurd hP (by decide)
  | LOADING_SESSION =>
      refine ⟨?_, ?_, ?_⟩
      · intro _
        unfold handleTogglePlay
        rw [hp]
      · intro hP
        exact absurd hP (by decide)
      · intro hP
        exact absurd hP (by decide)
  | PLAYING_COMMENTARY =>
      refine ⟨?_, ?_, ?_⟩
      · intro _
        unfold handleTogglePlay
        rw [hp]
      · intro hP
        exact absurd hP (by decide)
      · intro hP
        exact absurd hP (by decide)

/-- C7 witness: resuming the concretely paused first track sets phase
PLAYING_TRACK again without creating a new music element and with the
same music ref. -/
theorem c7_toggle_play_witness :
    (handleTogglePlay demoPaused).playbackState = PlaybackState.PLAYING_TRACK ∧
    (handleTogglePlay demoPaused).musicRef = demoPaused.musicRef ∧
    (handleTogglePlay demoPaused).elems.length = demoPaused.elems.length := by
  have h := (c7_toggle_play demoPaused reach_demoPaused).2.2 rfl
  exact ⟨h.1, h.2.1, h.2.2.1⟩

/-- C1: for every track started by playNextTrack, the natural-completion
callback and the 30-time-unit ceiling timer are mutually exclusive: in
every reachable state, if a music element's natural completion fired
first, then handleTrackEnd has been invoked exactly once on behalf of
that element and its ceiling timer never acted (it was cleared or
guarded out by the paused flag). -/
theorem c1_natural_completion_wins (s : AppState) (hr : Reachable s) (j : Nat)
    (e : MusicElem) (he : s.elems[j]? = some e)
    (hn : e.firstEnd = some EndSource.natural) :
    e.endCount = 1 ∧ e.timerActed = false := by
  have h := (invariant_reachable s hr).nat_first j e he hn
  exact ⟨h.2.1, h.2.2⟩

def dummyElem : MusicElem :=
  { url := "", volume := 0, paused := true, ended := false, onendedTrack := tA,
    onendedRest := [], firstEnd := none, endCount := 0, timerActed := false }

/-- The music element of the first track after its natural end in the
demo trace. -/
def demoNatEndElem : MusicElem := (demoNatEnd.elems[0]?).getD dummyElem

/-- C1 witness: in the concrete trace where the first track ends
naturally, its element shows exactly one Track-End-Decision and an
inactive timer. -/
theorem c1_natural_completion_wins_witness :
    demoNatEndElem.endCount = 1 ∧ demoNatEndElem.timerActed = false :=
  c1_natural_completion_wins demoNatEnd reach_demoNatEnd 0 demoNatEndElem rfl rfl

/-- C2 (failing evaluation): pressing Skip during the intro commentary
stops the voice source, but its still-attached completion callback
remains pending and, when delivered, invokes playNextTrack again: a
single Skip consumes two tracks.  The superseded voice handle's
callback drives a state transition of the current playback, violating
the claim. -/
theorem c2_stale_voice_callback_fires :
    Reachable staleVoiceFired ∧
    demoStart.playbackState = PlaybackState.PLAYING_COMMENTARY ∧
    demoStart.queue = [tA, tB] ∧
    skipDuringCommentary.currentTrack = some tA ∧
    skipDuringCommentary.queue = [tB] ∧
    (skipDuringCommentary.voices[0]?).map VoiceSource.stopped = some true ∧
    (skipDuringCommentary.voices[0]?).map VoiceSource.endedDelivered = some false ∧
    staleVoiceFired.currentTrack = some tB ∧
    staleVoiceFired.queue = [] ∧
    (staleVoiceFired.voices[0]?).map VoiceSource.endedDelivered = some true ∧
    staleVoiceFired.playbackState = PlaybackState.PLAYING_TRACK :=
  ⟨reach_staleVoiceFired, rfl, rfl, rfl, rfl, rfl, rfl, rfl, rfl, rfl, rfl⟩

/-- C3 (amended): issuing Skip N times in rapid succession from any
state with a loaded session shrinks the queue by exactly
min(N, queue length); the phase ends PLAYING_TRACK whenever at least
one Skip found a non-empty queue, and is simply unchanged when the
queue was already empty (playNextTrack on an empty queue is a no-op, so
exhausting the queue leaves PLAYING_TRACK rather than IDLE); Skip never
triggers commentary (no generation request and no voice playback is
started). -/
theorem c3_skip_storm (n : Nat) (s : AppState) (sess : DJSession)
    (_hsess : s.session = some sess) :
    (skipN n s).queue = s.queue.drop n ∧
    s.queue.length - (skipN n s).queue.length = min n s.queue.length ∧
    (1 ≤ n → s.queue ≠ [] → (skipN n s).playbackState = PlaybackState.PLAYING_TRACK) ∧
    (s.queue = [] → (skipN n s).playbackState = s.playbackState) ∧
    (skipN n s).session = s.session ∧
    (skipN n s).pendingGens = s.pendingGens ∧
    (skipN n s).voices.length = s.voices.length := by
  refine ⟨skipN_queue n s, ?_, skipN_phase_pop n s, skipN_empty_phase n s,
    skipN_session n s, skipN_pendingGens n s, skipN_voices_length n s⟩
  rw [skipN_queue, List.length_drop]
  omega

/-- C3 counterexample: from a reachable playing state with a loaded
session and a one-track queue, two rapid Skips exhaust the queue, yet
the phase stays PLAYING_TRACK — it does not become IDLE as the claim
requires for the exhausted case. -/
theorem c3_skip_storm_counterexample :
    Reachable demoPlaying ∧
    demoPlaying.session = some demoSess ∧
    demoPlaying.queue.length = 1 ∧
    (skipN 2 demoPlaying).queue = [] ∧
    (skipN 2 demoPlaying).playbackState = PlaybackState.PLAYING_TRACK ∧
    (skipN 2 demoPlaying).playbackState ≠ PlaybackState.IDLE := by
  refine ⟨reach_demoPlaying, rfl, rfl, rfl, rfl, ?_⟩
  decide

/-- C3 witness: two Skips on the concrete one-track playing state. -/
theorem c3_skip_storm_witness :
    (skipN 2 demoPlaying).queue = demoPlaying.queue.drop 2 ∧
    (skipN 2 demoPlaying).playbackState = PlaybackState.PLAYING_TRACK := by
  have h := c3_skip_storm 2 demoPlaying demoSess rfl
  exact ⟨h.1, h.2.2.1 (by omega) (by decide)⟩

/-- C5: in every reachable state with a session, the queue is a suffix
of the session track list fixed at creation: already-played tracks are
removed only from the front, in order, and the remainder is never
reordered. -/
theorem c5_queue_is_suffix (s : AppState) (hr : Reachable s) (sess : DJSession)
    (hsess : s.session = some sess) : s.queue.IsSuffix sess.tracks :=
  (invariant_reachable s hr).queue_suffix sess hsess

/-- C5 witness: after the intro commentary and the first track start,
the concrete queue is a suffix of the session track list. -/
theorem c5_queue_is_suffix_witness : demoPlaying.queue.IsSuffix demoSess.tracks :=
  c5_queue_is_suffix demoPlaying reach_demoPlaying demoSess rfl

/-- C6 (amended): with an empty queue, playNextTrack leaves the phase,
the current track, the queue and the session unchanged — but it is not
a complete no-op on the observable state: it still tears the audio
channels down (music ref nulled, voice stop requested, ceiling timer
cleared) and clears the commentary text. -/
theorem c6_empty_queue (s : AppState) (hq : s.queue = []) :
    (playNextTrack s).playbackState = s.playbackState ∧
    (playNextTrack s).currentTrack = s.currentTrack ∧
    (playNextTrack s).queue = [] ∧
    (playNextTrack s).session = s.session ∧
    (playNextTrack s).isLoading = s.isLoading ∧
    (playNextTrack s).elems.length = s.elems.length ∧
    (playNextTrack s).voices.length = s.voices.length ∧
    (playNextTrack s).djText = none ∧
    (playNextTrack s).musicRef = none := by
  rw [playNextTrack_empty s hq]
  refine ⟨rfl, rfl, hq, rfl, rfl, ?_, ?_, rfl, rfl⟩
  · exact pauseRefElem_length s.elems s.musicRef
  · exact stopRefVoice_length s.voices s.voiceRef

/-- C6 witness: playNextTrack on the reachable empty-playlist
commentary state keeps phase and current track and starts nothing
new. -/
theorem c6_empty_queue_witness :
    (playNextTrack emptyPlaylistStart).playbackState = emptyPlaylistStart.playbackState ∧
    (playNextTrack emptyPlaylistStart).currentTrack = emptyPlaylistStart.currentTrack ∧
    (playNextTrack emptyPlaylistStart).djText = none := by
  have h := c6_empty_queue emptyPlaylistStart rfl
  exact ⟨h.1, h.2.1, h.2.2.2.2.2.2.2.1⟩

/-- C6 counterexample: in the reachable state where the intro
commentary plays over an empty playlist, invoking playNextTrack is not
a no-op on the observable state: the commentary text is cleared and the
active voice handle is stopped. -/
theorem c6_empty_queue_counterexample :
    Reachable emptyPlaylistStart ∧
    emptyPlaylistStart.queue = [] ∧
    emptyPlaylistStart.djText = some "welcome" ∧
    (emptyPlaylistStart.voices[0]?).map VoiceSource.stopped = some false ∧
    (playNextTrack emptyPlaylistStart).djText = none ∧
    ((playNextTrack emptyPlaylistStart).voices[0]?).map VoiceSource.stopped = some true ∧
    (playNextTrack emptyPlaylistStart).djText ≠ emptyPlaylistStart.djText := by
  refine ⟨reach_emptyPlaylistStart, rfl, rfl, rfl, rfl, rfl, ?_⟩
  decide

/-- C10: the session record is never mutated after creation: in every
reachable state holding a session, its history is still empty and its
cursor still -1, so the session invariants of the specification hold
only vacuously. -/
theorem c10_session_never_mutated (s : AppState) (hr : Reachable s) (sess : DJSession)
    (hsess : s.session = some sess) :
    sess.currentTrackIndex = -1 ∧ sess.history = [] :=
  (invariant_reachable s hr).session_frozen sess hsess

/-- C10 witness: after commentary, track start and a natural track end,
the session record still has an empty history and cursor -1. -/
theorem c10_session_never_mutated_witness :
    demoSess.currentTrackIndex = -1 ∧ demoSess.history = [] :=
  c10_session_never_mutated demoNatEnd reach_demoNatEnd demoSess rfl

/-- C4 (amended): isLoading is false when every startSession invocation
completes — on success, on a failing step, and on a thrown error.  A
failing playlist generation or speech synthesis aborts the sequence,
surfaces a user-visible error and resets the phase to IDLE.  A failing
audio-context resume, however, is only logged (console warning) and the
sequence continues. -/
theorem c4_start_session (p : String) (rf sf : Bool)
    (pl : Option (List Track × String)) (s : AppState) :
    (startSession p rf pl sf s).isLoading = false ∧
    (rf = true → (startSession p rf pl sf s).warns = s.warns + 1) ∧
    (pl = none →
      (startSession p rf pl sf s).alerts = s.alerts ++ [startErrorAlert] ∧
      (startSession p rf pl sf s).playbackState = PlaybackState.IDLE) ∧
    (∀ tracks intro, pl = some (tracks, intro) → sf = true →
      (startSession p rf pl sf s).alerts = s.alerts ++ [startErrorAlert] ∧
      (startSession p rf pl sf s).playbackState = PlaybackState.IDLE) ∧
    (∀ tracks intro, pl = some (tracks, intro) → sf = false →
      (startSession p rf pl sf s).alerts = s.alerts ∧
      (startSession p rf pl sf s).playbackState = PlaybackState.PLAYING_COMMENTARY ∧
      (startSession p rf pl sf s).djText = some intro) := by
  rcases pl with _ | ⟨tracks0, intro0⟩
  · cases rf
    · cases sf
      · refine ⟨rfl, ?_, ?_, ?_, ?_⟩
        · intro h
          exact Bool.noConfusion h
        · intro _
          exact ⟨rfl, rfl⟩
        · intro _ _ h _
          exact Option.noConfusion h
        · intro _ _ h _
          exact Option.noConfusion h
      · refine ⟨rfl, ?_, ?_, ?_, ?_⟩
        · intro h
          exact Bool.noConfusion h
        · intro _
          exact ⟨rfl, rfl⟩
        · intro _ _ h _
          exact Option.noConfusion h
        · intro _ _ h _
          exact Option.noConfusion h
    · cases sf
      · refine ⟨rfl, ?_, ?_, ?_, ?_⟩
        · intro _
          rfl
        · intro _
          exact ⟨rfl, rfl⟩
        · intro _ _ h _
          exact Option.noConfusion h
        · intro _ _ h _
          exact Option.noConfusion h
      · refine ⟨rfl, ?_, ?_, ?_, ?_⟩
        · intro _
          rfl
        · intro _
          exact ⟨rfl, rfl⟩
        · intro _ _ h _
          exact Option.noConfusion h
        · intro _ _ h _
          exact Option.noConfusion h
  · cases rf
    · cases sf
      · refine ⟨rfl, ?_, ?_, ?_, ?_⟩
        · intro h
          exact Bool.noConfusion h
        · intro h
          exact Option.noConfusion h
        · intro _ _ _ h
          exact Bool.noConfusion h
        · intro tr it hEq _
          have h5 := Option.some.inj hEq
          rw [Prod.mk.injEq] at h5
          obtain ⟨h3, h4⟩ := h5
          subst h4
          exact ⟨rfl, rfl, rfl⟩
      · refine ⟨rfl, ?_, ?_, ?_, ?_⟩
        · intro h
          exact Bool.noConfusion h
        · intro h
          exact Option.noConfusion h
        · intro _ _ _ _
          exact ⟨rfl, rfl⟩
        · intro _ _ _ h
          exact Bool.noConfusion h
    · cases sf
      · refine ⟨rfl, ?_, ?_, ?_, ?_⟩
        · intro _
          rfl
        · intro h
          exact Option.noConfusion h
        · intro _ _ _ h
          exact Bool.noConfusion h
        · intro tr it hEq _
          have h5 := Option.some.inj hEq
          rw [Prod.mk.injEq] at h5
          obtain ⟨h3, h4⟩ := h5
          subst h4
          exact ⟨rfl, rfl, rfl⟩
      · refine ⟨rfl, ?_, ?_, ?_, ?_⟩
        · intro _
          rfl
        · intro h
          exact Option.noConfusion h
        · intro _ _ _ _
          exact ⟨rfl, rfl⟩
        · intro _ _ _ h
          exact Bool.noConfusion h

/-- C4 counterexample: a failed audio-context resume is a failing step
of the startSession sequence (steps 1-5 of the specification), yet the
code only logs it: here the resume fails while the later steps succeed,
and the run ends in PLAYING_COMMENTARY with no user-visible error and
no reset to IDLE — the sequence was not aborted. -/
theorem c4_start_session_counterexample :
    (startSession "m" true (some ([tA], "intro")) false initState).warns
      = initState.warns + 1 ∧
    (startSession "m" true (some ([tA], "intro")) false initState).alerts = [] ∧
    (startSession "m" true (some ([tA], "intro")) false initState).playbackState
      = PlaybackState.PLAYING_COMMENTARY ∧
    (startSession "m" true (some ([tA], "intro")) false initState).playbackState
      ≠ PlaybackState.IDLE := by
  refine ⟨rfl, rfl, rfl, ?_⟩
  decide

/-- C4 witness: a failing playlist generation aborts, surfaces the
error, resets to IDLE, and leaves isLoading false. -/
theorem c4_start_session_witness :
    (startSession "m" false none false initState).isLoading = false ∧
    (startSession "m" false none false initState).alerts = [startErrorAlert] ∧
    (startSession "m" false none false initState).playbackState = PlaybackState.IDLE := by
  have h := c4_start_session "m" false false none initState
  exact ⟨h.1, (h.2.2.1 rfl).1, (h.2.2.1 rfl).2⟩

/-- C9: for every track query during playlist generation for which the
metadata provider returns null, the resulting Track is a placeholder
with previewUrl none and album "Unknown Album", and the enrichment loop
never fails: every raw track yields exactly one enriched Track. -/
theorem c9_metadata_miss (now : Nat) (raw : List RawTrack)
    (lookup : String → Option SpotifyData) (i : Nat) (t : RawTrack)
    (ht : raw[i]? = some t) (hmiss : lookup (trackQuery t) = none) :
    (enrichTracks now raw lookup).length = raw.length ∧
    (enrichTracks now raw lookup)[i]? = some (enrichTrack now i t none) ∧
    (enrichTrack now i t none).previewUrl = none ∧
    (enrichTrack now i t none).album = "Unknown Album" := by
  refine ⟨enrichTracksAux_length now lookup 0 raw, ?_, rfl, rfl⟩
  show (enrichTracksAux now lookup 0 raw)[i]? = _
  rw [enrichTracksAux_getElem?, ht]
  simp only [Option.map_some', hmiss, Nat.zero_add]

def rawX : RawTrack := { title := "Song", artist := "Someone", moodTag := "", reason := none }

/-- C9 witness: a one-track playlist whose lookup misses yields exactly
one placeholder track. -/
theorem c9_metadata_miss_witness :
    (enrichTracks 7 [rawX] (fun _ => none)).length = 1 ∧
    (enrichTracks 7 [rawX] (fun _ => none))[0]? = some (enrichTrack 7 0 rawX none) ∧
    (enrichTrack 7 0 rawX none).previewUrl = none ∧
    (enrichTrack 7 0 rawX none).album = "Unknown Album" :=
  c9_metadata_miss 7 [rawX] (fun _ => none) 0 rawX rfl rfl

theorem playNextTrack_warns (s : AppState) : (playNextTrack s).warns = s.warns := by
  unfold playNextTrack playNextTrackAux
  cases hq : ({ stopAllAudio s with djText := none }).queue <;> rfl

/-- handleTrackEnd with remaining tracks, the coin selecting commentary
and a session present registers exactly one pending interlude
generation. -/
theorem handleTrackEnd_commentary (s : AppState) (finT next : Track) (r : List Track)
    (hsess : s.session.isSome = true) :
    handleTrackEnd true finT (next :: r) s
      = { s with pendingGens :=
            s.pendingGens ++ [{ finished := finT, rest := next :: r, resolved := false }] } := by
  unfold handleTrackEnd
  rw [if_pos (by simp), if_pos (by rw [Bool.true_and, hsess])]

theorem genResolve_unresolved (k : Nat) (iFail : Bool) (txt : String) (sFail : Bool)
    (s : AppState) (job : GenJob) (hk : s.pendingGens[k]? = some job)
    (hres : job.resolved = false) :
    genResolve k iFail txt sFail s
      = genResolveCont iFail txt sFail job
          { s with pendingGens := updateAt s.pendingGens k (fun j => { j with resolved := true }) } := by
  unfold genResolve
  rw [hk]
  dsimp only
  rw [if_neg (by rw [hres]; exact Bool.false_ne_true)]

theorem genResolveCont_speechFail (iFail : Bool) (txt : String) (job : GenJob)
    (next : Track) (r : List Track) (hrest : job.rest = next :: r) (s1 : AppState) :
    genResolveCont iFail txt true job s1
      = playNextTrack { s1 with warns := s1.warns + 1 } := by
  unfold genResolveCont
  rw [hrest]
  rfl

theorem genResolveCont_speechOk (iFail : Bool) (txt : String) (job : GenJob)
    (next : Track) (r : List Track) (hrest : job.rest = next :: r) (s1 : AppState) :
    genResolveCont iFail txt false job s1
      = playCommentary (interludeScript iFail txt next) s1 := by
  unfold genResolveCont
  rw [hrest]
  rfl

/-- Starting a commentary and then letting its voice source finish and
deliver its completion advances to the next track of the live queue. -/
theorem playCommentary_then_voice (txt : String) (s' : AppState) :
    (voiceDeliverAt s'.voices.length
      (voiceFinishAt s'.voices.length (playCommentary txt s'))).queue
        = s'.queue.drop 1 ∧
    (∀ q qs, s'.queue = q :: qs →
      (voiceDeliverAt s'.voices.length
        (voiceFinishAt s'.voices.length (playCommentary txt s'))).playbackState
          = PlaybackState.PLAYING_TRACK ∧
      (voiceDeliverAt s'.voices.length
        (voiceFinishAt s'.voices.length (playCommentary txt s'))).currentTrack
          = some q) := by
  have hv := (playCommentary_facts txt s').2.2.2.2.2.2
  have hc := voice_cycle s'.voices.length (playCommentary txt s') hv
  refine ⟨hc.1, ?_⟩
  intro q qs hq
  exact hc.2 q qs hq

/-- C8: when handleTrackEnd runs with a non-empty remaining queue and
the random choice selects commentary, the interlude generation is
registered; whatever the outcome of the two generation steps, failure
is absorbed without surfacing an alert and the next track still gets
advanced to: if the speech synthesis rejects (for any internal outcome
of the interlude-script step), only a console warning is recorded and
playNextTrack runs directly, popping the live queue; if the
interlude-script generation fails internally, it resolves to the
deterministic fallback script instead of rejecting, a fallback
commentary plays, and the delivery of its completion invokes
playNextTrack for the next track. -/
theorem c8_commentary_failure_fallback (s : AppState) (finT next : Track)
    (r : List Track) (iFail : Bool) (txt : String)
    (hsess : s.session.isSome = true) :
    handleTrackEnd true finT (next :: r) s
      = { s with pendingGens :=
            s.pendingGens ++ [{ finished := finT, rest := next :: r, resolved := false }] } ∧
    ((genResolve s.pendingGens.length iFail txt true
        (handleTrackEnd true finT (next :: r) s)).alerts = s.alerts ∧
     (genResolve s.pendingGens.length iFail txt true
        (handleTrackEnd true finT (next :: r) s)).warns = s.warns + 1 ∧
     (genResolve s.pendingGens.length iFail txt true
        (handleTrackEnd true finT (next :: r) s)).queue = s.queue.drop 1 ∧
     (∀ q qs, s.queue = q :: qs →
        (genResolve s.pendingGens.length iFail txt true
          (handleTrackEnd true finT (next :: r) s)).playbackState
            = PlaybackState.PLAYING_TRACK ∧
        (genResolve s.pendingGens.length iFail txt true
          (handleTrackEnd true finT (next :: r) s)).currentTrack = some q)) ∧
    ((genResolve s.pendingGens.length true txt false
        (handleTrackEnd true finT (next :: r) s)).alerts = s.alerts ∧
     (genResolve s.pendingGens.length true txt false
        (handleTrackEnd true finT (next :: r) s)).playbackState
          = PlaybackState.PLAYING_COMMENTARY ∧
     (genResolve s.pendingGens.length true txt false
        (handleTrackEnd true finT (next :: r) s)).djText
          = some ("Next up is " ++ next.title ++ ".") ∧
     (genResolve s.pendingGens.length true txt false
        (handleTrackEnd true finT (next :: r) s)).voiceRef = some s.voices.length ∧
     ((voiceDeliverAt s.voices.length (voiceFinishAt s.voices.length
        (genResolve s.pendingGens.length true txt false
          (handleTrackEnd true finT (next :: r) s)))).queue = s.queue.drop 1 ∧
      (∀ q qs, s.queue = q :: qs →
        (voiceDeliverAt s.voices.length (voiceFinishAt s.voices.length
          (genResolve s.pendingGens.length true txt false
            (handleTrackEnd true finT (next :: r) s)))).playbackState
              = PlaybackState.PLAYING_TRACK ∧
        (voiceDeliverAt s.voices.length (voiceFinishAt s.voices.length
          (genResolve s.pendingGens.length true txt false
            (handleTrackEnd true finT (next :: r) s)))).currentTrack = some q))) := by
  have hS1 := handleTrackEnd_commentary s finT next r hsess
  have hk : ({ s with pendingGens :=
      s.pendingGens ++ [{ finished := finT, rest := next :: r, resolved := false }] }
        : AppState).pendingGens[s.pendingGens.length]?
      = some { finished := finT, rest := next :: r, resolved := false } := by
    show (s.pendingGens ++ [_])[s.pendingGens.length]? = _
    rw [getElem?_concat]
    simp
  have hG1 : genResolve s.pendingGens.length iFail txt true
      (handleTrackEnd true finT (next :: r) s)
      = playNextTrack { ({ s with pendingGens :=
          s.pendingGens ++ [{ finished := finT, rest := next :: r, resolved := false }] } : AppState) with
          pendingGens := updateAt (s.pendingGens ++
            [{ finished := finT, rest := next :: r, resolved := false }])
            s.pendingGens.length (fun j => { j with resolved := true })
          warns := s.warns + 1 } := by
    rw [hS1, genResolve_unresolved _ _ _ _ _ _ hk rfl,
      genResolveCont_speechFail iFail txt _ next r rfl]
  have hG2 : genResolve s.pendingGens.length true txt false
      (handleTrackEnd true finT (next :: r) s)
      = playCommentary ("Next up is " ++ next.title ++ ".")
          { ({ s with pendingGens :=
              s.pendingGens ++ [{ finished := finT, rest := next :: r, resolved := false }] } : AppState) with
              pendingGens := updateAt (s.pendingGens ++
                [{ finished := finT, rest := next :: r, resolved := false }])
                s.pendingGens.length (fun j => { j with resolved := true }) } := by
    rw [hS1, genResolve_unresolved _ _ _ _ _ _ hk rfl,
      genResolveCont_speechOk true txt _ next r rfl]
    rfl
  refine ⟨hS1, ⟨?_, ?_, ?_, ?_⟩, ⟨?_, ?_, ?_, ?_, ?_, ?_⟩⟩
  · rw [hG1, playNextTrack_alerts]
  · rw [hG1, playNextTrack_warns]
  · rw [hG1, playNextTrack_queue]
  · intro q qs hq
    refine ⟨?_, ?_⟩
    · rw [hG1, playNextTrack_phase]
      dsimp only
      rw [hq]
    · rw [hG1, playNextTrack_current]
      dsimp only
      rw [hq]
  · rw [hG2]
    rfl
  · rw [hG2]
    rfl
  · rw [hG2]
    rfl
  · rw [hG2]
    exact (playCommentary_facts _ _).2.2.2.2.2.1
  · rw [hG2]
    exact (playCommentary_then_voice _ _).1
  · intro q qs hq
    rw [hG2]
    exact (playCommentary_then_voice _ _).2 q qs hq

/-- C8 witness: on the concrete playing state, a rejected speech
synthesis is absorbed and play advances directly; an internally failed
interlude script yields fallback commentary instead. -/
theorem c8_commentary_failure_fallback_witness :
    (genResolve 0 false "script" true (handleTrackEnd true tA [tB] demoPlaying)).alerts
      = demoPlaying.alerts ∧
    (genResolve 0 false "script" true (handleTrackEnd true tA [tB] demoPlaying)).playbackState
      = PlaybackState.PLAYING_TRACK ∧
    (genResolve 0 true "script" false (handleTrackEnd true tA [tB] demoPlaying)).playbackState
      = PlaybackState.PLAYING_COMMENTARY := by
  have h := c8_commentary_failure_fallback demoPlaying tA tB [] false "script" rfl
  exact ⟨h.2.1.1, (h.2.1.2.2.2 tB [] rfl).1, h.2.2.2.1⟩

end TidalDJ
